import Mathlib

/-!
# Verification of the LLVM code-generation bridge (cgmain)

A shallow embedding, in Lean 4, of the decision logic of the IL-to-LLVM
lowering engine: atomic memory-order lowering, complex multiplication,
fused-multiply-add rewriting, the common-subexpression cache, call/ABI
return handling, dead-code elimination, the label/terminator discipline of
the instruction printer, vector min/max intrinsic fallback, and the
statement scheduler's default-return synthesis.

Each definition is translated from the corresponding C function of the
source module (names are kept).  Machine integers appearing here are only
counters and identifiers, so they are modelled by Nat/Int directly; values
flowing through floating instructions are modelled by rationals, which is
adequate because every claim proved below is about instruction structure
or about exact arithmetic identities of the emitted dataflow.
-/

namespace Atomic

/-- The IL memory orders (enum MEMORY_ORDER). -/
inductive MEMORY_ORDER
  | MO_RELAXED
  | MO_CONSUME
  | MO_ACQUIRE
  | MO_RELEASE
  | MO_ACQ_REL
  | MO_SEQ_CST
deriving DecidableEq

/-- The atomic memory-order instruction flags.  The numeric bit encodings
live in a header outside the translated module; since
get_atomic_memory_order_name reads the flags only through the mask
ATOMIC_MEM_ORD_FLAGS, the masked field is modelled as a tagged value. -/
inductive AtomicOrdFlag
  | ATOMIC_MONOTONIC_FLAG
  | ATOMIC_ACQUIRE_FLAG
  | ATOMIC_RELEASE_FLAG
  | ATOMIC_ACQ_REL_FLAG
  | ATOMIC_SEQ_CST_FLAG
deriving DecidableEq

/-- The atomic read-modify-write operation flags (masked field
ATOMIC_RMW_OP_FLAGS). -/
inductive RmwOpFlag
  | ATOMIC_SUB_FLAG
  | ATOMIC_ADD_FLAG
  | ATOMIC_XCHG_FLAG
  | ATOMIC_UMIN_FLAG
  | ATOMIC_MIN_FLAG
  | ATOMIC_UMAX_FLAG
  | ATOMIC_MAX_FLAG
  | ATOMIC_AND_FLAG
  | ATOMIC_OR_FLAG
  | ATOMIC_XOR_FLAG
deriving DecidableEq

/-- ll_instr_flags_from_memory_order: MEMORY_ORDER to instruction flags.
LLVM does not support consume, so the source rounds it up to acquire. -/
def ll_instr_flags_from_memory_order : MEMORY_ORDER → AtomicOrdFlag
  | .MO_RELAXED => .ATOMIC_MONOTONIC_FLAG
  | .MO_CONSUME => .ATOMIC_ACQUIRE_FLAG
  | .MO_ACQUIRE => .ATOMIC_ACQUIRE_FLAG
  | .MO_RELEASE => .ATOMIC_RELEASE_FLAG
  | .MO_ACQ_REL => .ATOMIC_ACQ_REL_FLAG
  | .MO_SEQ_CST => .ATOMIC_SEQ_CST_FLAG

/-- get_atomic_memory_order_name: keyword printed for the memory-order
flag field of an atomic instruction. -/
def get_atomic_memory_order_name : AtomicOrdFlag → String
  | .ATOMIC_MONOTONIC_FLAG => "monotonic"
  | .ATOMIC_ACQUIRE_FLAG => "acquire"
  | .ATOMIC_RELEASE_FLAG => "release"
  | .ATOMIC_ACQ_REL_FLAG => "acq_rel"
  | .ATOMIC_SEQ_CST_FLAG => "seq_cst"

/-- get_atomicrmw_opname: operation keyword of an atomicrmw instruction. -/
def get_atomicrmw_opname : RmwOpFlag → String
  | .ATOMIC_SUB_FLAG => "sub"
  | .ATOMIC_ADD_FLAG => "add"
  | .ATOMIC_XCHG_FLAG => "xchg"
  | .ATOMIC_UMIN_FLAG => "umin"
  | .ATOMIC_MIN_FLAG => "min"
  | .ATOMIC_UMAX_FLAG => "umax"
  | .ATOMIC_MAX_FLAG => "max"
  | .ATOMIC_AND_FLAG => "and"
  | .ATOMIC_OR_FLAG => "or"
  | .ATOMIC_XOR_FLAG => "xor"

/-- The flag bits of an atomic instruction that the printer consumes:
the rmw operation field, the memory-order field, and the singlethread
bit (ATOMIC_SINGLETHREAD_FLAG). -/
structure AtomicFlags where
  rmwop : RmwOpFlag
  memord : AtomicOrdFlag
  singlethread : Bool
deriving DecidableEq

/-- write_memory_order: emits [singlethread] followed by a space and the
memory-order keyword.  Each element of the result list is one print_token
or print_space call of the source. -/
def write_memory_order (flags : AtomicFlags) : List String :=
  (if flags.singlethread then [" singlethread"] else []) ++
    [" ", get_atomic_memory_order_name flags.memord]

/-- The I_ATOMICRMW case of write_instructions: tab, temp name, " = ",
the instruction name "atomicrmw" from llvm_instr_names, a space, the rmw
operation keyword, a space, the operand text, then write_memory_order. -/
def write_I_ATOMICRMW (tmpname : String) (flags : AtomicFlags)
    (operandsText : String) : List String :=
  ["\t", tmpname, " = ", "atomicrmw", " ", get_atomicrmw_opname flags.rmwop,
    " ", operandsText] ++ write_memory_order flags

end Atomic

/-- C3: a seq_cst read-modify-write prints an atomicrmw whose operation
keyword is followed (after the operands and optional singlethread marker)
by the token seq_cst; a consume IL order is lowered to the acquire flags;
and the memory-order printer can only produce the five LLVM keywords, so
the word consume never appears in the output. -/
theorem atomic_ordering_seq_cst_and_consume :
    (∀ (tmpname operandsText : String) (op : Atomic.RmwOpFlag) (st : Bool),
      Atomic.write_I_ATOMICRMW tmpname
          ⟨op, Atomic.ll_instr_flags_from_memory_order .MO_SEQ_CST, st⟩
          operandsText
        = ["\t", tmpname, " = ", "atomicrmw", " ",
            Atomic.get_atomicrmw_opname op, " ", operandsText] ++
            (if st then [" singlethread"] else []) ++ [" ", "seq_cst"]) ∧
    Atomic.ll_instr_flags_from_memory_order .MO_CONSUME
      = Atomic.ll_instr_flags_from_memory_order .MO_ACQUIRE ∧
    (∀ f : Atomic.AtomicOrdFlag,
      Atomic.get_atomic_memory_order_name f ≠ "consume") := by
  refine ⟨?_, rfl, ?_⟩
  · intro tmpname operandsText op st
    simp [Atomic.write_I_ATOMICRMW, Atomic.write_memory_order,
      Atomic.ll_instr_flags_from_memory_order,
      Atomic.get_atomic_memory_order_name]
  · intro f
    cases f <;> simp [Atomic.get_atomic_memory_order_name]

namespace Cmplx

/-- LLVM instruction opcodes relevant to complex-multiply lowering and to
the common-subexpression search of ad_csed_instr. -/
inductive IName
  | I_FMUL
  | I_FSUB
  | I_FADD
  | I_EXTRACTVAL
  | I_INSERTVAL
  | I_CALL
  | I_PICALL
  | I_SW
  | I_INVOKE
  | I_BR
  | I_INDBR
  | I_NONE
  | I_OTHER
deriving DecidableEq

/-- Operand (OPERAND): a temporary reference, a 32-bit constant, or an
undef value. -/
inductive OT
  | tmp (t : Nat)
  | constval (c : Int)
  | undef
deriving DecidableEq

/-- An emitted instruction: opcode, defined temporary, operand list,
and the STARTEBB flag consulted by the CSE search. -/
structure Instr where
  iname : IName
  tmps : Option Nat
  ops : List OT
  startebb : Bool
deriving DecidableEq

/-- Codegen state: the routine's instruction list (in emission order) and
the next fresh temporary number. -/
structure CGState where
  instrs : List Instr
  nextTmp : Nat
deriving DecidableEq

/-- same_op: operands match if both are the same temporary, or both the
same constant; every other comparison (including undef) is false. -/
def same_op : OT → OT → Bool
  | .tmp a, .tmp b => a == b
  | .constval a, .constval b => a == b
  | _, _ => false

/-- Pointwise operand-list comparison of ad_csed_instr: both lists must be
exhausted together with every pair matching. -/
def same_ops : List OT → List OT → Bool
  | [], [] => true
  | a :: as1, b :: bs1 => same_op a b && same_ops as1 bs1
  | _, _ => false

/-- The backward search of ad_csed_instr over the instruction list (the
argument is the list most-recent-first).  A matching instruction is
reused; the search stops at switch/invoke/call, at branches and labels
(unless the enhanced CSE is on), and at an extended-basic-block start. -/
def find_cse_match (iname : IName) (ops : List OT) (enhanced : Bool) :
    List Instr → Option Instr
  | [] => none
  | i :: rest =>
    if i.iname = iname ∧ same_ops i.ops ops then some i
    else
      match i.iname with
      | .I_SW | .I_INVOKE | .I_CALL => none
      | .I_BR | .I_INDBR | .I_NONE =>
        if ¬enhanced then none
        else if i.startebb then none else find_cse_match iname ops enhanced rest
      | _ => if i.startebb then none else find_cse_match iname ops enhanced rest

/-- ad_csed_instr: when do_cse is requested, CSE optimization is enabled,
and we are not at the start of a new extended basic block, search backward
for an identical instruction and reuse its temporary; otherwise append a
new instruction defining a fresh temporary. -/
def ad_csed_instr (cseOpt enhanced newEbb : Bool) (iname : IName)
    (ops : List OT) (do_cse : Bool) (st : CGState) : OT × CGState :=
  match (if do_cse ∧ cseOpt ∧ ¬newEbb then
          find_cse_match iname ops enhanced st.instrs.reverse
        else none) with
  | some i => (OT.tmp (i.tmps.getD 0), st)
  | none =>
    let t := st.nextTmp
    (OT.tmp t, ⟨st.instrs ++ [⟨iname, some t, ops, false⟩], t + 1⟩)

/-- gen_extract_value: emits an extractvalue of the aggregate at a constant
index, defining a fresh temporary (gen_instr followed by ad_instr; no CSE
search). -/
def gen_extract_value (aggr : OT) (idx : Int) (st : CGState) : OT × CGState :=
  let t := st.nextTmp
  (OT.tmp t,
    ⟨st.instrs ++ [⟨.I_EXTRACTVAL, some t, [aggr, OT.constval idx], false⟩],
      t + 1⟩)

/-- gen_insert_value: insertvalue of elem into aggr at index, emitted
through ad_csed_instr with do_cse = FALSE. -/
def gen_insert_value (cseOpt enhanced newEbb : Bool) (aggr elem : OT)
    (idx : Int) (st : CGState) : OT × CGState :=
  ad_csed_instr cseOpt enhanced newEbb .I_INSERTVAL
    [aggr, elem, OT.constval idx] false st

/-- gen_cmplx_mul: complex multiply (a + bi) * (c + di).  Extracts the
four components (re-extracting a and bi from copies of the first operand
when they are needed a second time), forms the four scalar products
a*c, a*di, bi*c, bi*di, combines them as real = r1 - r4 and
imag = r2 + r3, and assembles {real, imag} with two insertvalues.
gen_copy_operand copies an operand without emitting code, so a copy is
the operand itself here. -/
def gen_cmplx_mul (cseOpt enhanced newEbb : Bool) (c1 c2 : OT)
    (st0 : CGState) : OT × CGState :=
  let p1 := gen_extract_value c1 0 st0
  let p2 := gen_extract_value c1 1 p1.2
  let p3 := gen_extract_value c2 0 p2.2
  let p4 := gen_extract_value c2 1 p3.2
  let q1 := ad_csed_instr cseOpt enhanced newEbb .I_FMUL [p1.1, p3.1] true p4.2
  let p5 := gen_extract_value c1 0 q1.2
  let q2 := ad_csed_instr cseOpt enhanced newEbb .I_FMUL [p5.1, p4.1] true p5.2
  let q3 := ad_csed_instr cseOpt enhanced newEbb .I_FMUL [p2.1, p3.1] true q2.2
  let p6 := gen_extract_value c1 1 q3.2
  let q4 := ad_csed_instr cseOpt enhanced newEbb .I_FMUL [p6.1, p4.1] true p6.2
  let qr := ad_csed_instr cseOpt enhanced newEbb .I_FSUB [q1.1, q4.1] true q4.2
  let qi := ad_csed_instr cseOpt enhanced newEbb .I_FADD [q2.1, q3.1] true qr.2
  let w1 := gen_insert_value cseOpt enhanced newEbb OT.undef qr.1 0 qi.2
  gen_insert_value cseOpt enhanced newEbb w1.1 qi.1 1 w1.2

/-- Value domain for evaluating the emitted instructions: a scalar, a
{real, imag} aggregate, or undef. -/
inductive Val
  | num (q : ℚ)
  | agg (re im : ℚ)
  | undefv
deriving DecidableEq

/-- Temporary environment built while replaying the instruction list. -/
def lookupVal : List (Nat × Val) → Nat → Val
  | [], _ => .undefv
  | (k, v) :: rest, t => if k == t then v else lookupVal rest t

def evalOT (env : List (Nat × Val)) : OT → Val
  | .tmp t => lookupVal env t
  | .constval c => .num c
  | .undef => .undefv

def toQ : Val → ℚ
  | .num q => q
  | _ => 0

/-- Meaning of one instruction over the current environment. -/
def instrVal (env : List (Nat × Val)) (i : Instr) : Val :=
  match i.iname, i.ops with
  | .I_FMUL, [x, y] => .num (toQ (evalOT env x) * toQ (evalOT env y))
  | .I_FSUB, [x, y] => .num (toQ (evalOT env x) - toQ (evalOT env y))
  | .I_FADD, [x, y] => .num (toQ (evalOT env x) + toQ (evalOT env y))
  | .I_EXTRACTVAL, [x, .constval idx] =>
    (match evalOT env x with
      | .agg re im => .num (if idx = 0 then re else im)
      | _ => .num 0)
  | .I_INSERTVAL, [x, e, .constval idx] =>
    (match evalOT env x with
      | .agg re im =>
        if idx = 0 then .agg (toQ (evalOT env e)) im
        else .agg re (toQ (evalOT env e))
      | _ =>
        if idx = 0 then .agg (toQ (evalOT env e)) 0
        else .agg 0 (toQ (evalOT env e)))
  | _, _ => .undefv

def stepInstr (env : List (Nat × Val)) (i : Instr) : List (Nat × Val) :=
  match i.tmps with
  | none => env
  | some t => (t, instrVal env i) :: env

def runInstrs (env : List (Nat × Val)) : List Instr → List (Nat × Val)
  | [] => env
  | i :: rest => runInstrs (stepInstr env i) rest

/-- Initial environment: temporary 0 holds the first complex operand
{a, b}, temporary 1 the second {c, d}. -/
def env0 (a b c d : ℚ) : List (Nat × Val) := [(0, .agg a b), (1, .agg c d)]

/-- Count of instructions with a given opcode. -/
def countIName (nm : IName) (l : List Instr) : Nat :=
  (l.filter (fun i => i.iname = nm)).length

end Cmplx

/-- C4: lowering a complex multiply with operands {a,b} and {c,d} emits
exactly four scalar multiplies computing a*c, a*d, b*c, b*d, combines
them as real = a*c - b*d and imag = a*d + b*c, inserts the real part at
aggregate index 0 and the imaginary part at index 1, and emits no call
instruction (no fused complex intrinsic). -/
theorem cmplx_mul_four_multiplies (a b c d : ℚ)
    (cseOpt enhanced newEbb : Bool) :
    Cmplx.countIName .I_FMUL
        (Cmplx.gen_cmplx_mul cseOpt enhanced newEbb (.tmp 0) (.tmp 1)
          ⟨[], 2⟩).2.instrs = 4 ∧
    Cmplx.countIName .I_CALL
        (Cmplx.gen_cmplx_mul cseOpt enhanced newEbb (.tmp 0) (.tmp 1)
          ⟨[], 2⟩).2.instrs = 0 ∧
    Cmplx.countIName .I_PICALL
        (Cmplx.gen_cmplx_mul cseOpt enhanced newEbb (.tmp 0) (.tmp 1)
          ⟨[], 2⟩).2.instrs = 0 ∧
    ((Cmplx.gen_cmplx_mul cseOpt enhanced newEbb (.tmp 0) (.tmp 1)
          ⟨[], 2⟩).2.instrs.filter
        (fun i => i.iname = .I_FMUL)).map
        (fun i => Cmplx.toQ (Cmplx.instrVal
          (Cmplx.runInstrs (Cmplx.env0 a b c d)
            (Cmplx.gen_cmplx_mul cseOpt enhanced newEbb (.tmp 0) (.tmp 1)
              ⟨[], 2⟩).2.instrs) i))
      = [a * c, a * d, b * c, b * d] ∧
    Cmplx.evalOT
        (Cmplx.runInstrs (Cmplx.env0 a b c d)
          (Cmplx.gen_cmplx_mul cseOpt enhanced newEbb (.tmp 0) (.tmp 1)
            ⟨[], 2⟩).2.instrs)
        (Cmplx.gen_cmplx_mul cseOpt enhanced newEbb (.tmp 0) (.tmp 1)
          ⟨[], 2⟩).1
      = .agg (a * c - b * d) (a * d + b * c) := by
  cases cseOpt <;> cases enhanced <;> cases newEbb <;>
    simp [Cmplx.gen_cmplx_mul, Cmplx.gen_extract_value, Cmplx.ad_csed_instr,
      Cmplx.gen_insert_value, Cmplx.find_cse_match, Cmplx.same_ops,
      Cmplx.same_op, Cmplx.countIName, Cmplx.runInstrs, Cmplx.stepInstr,
      Cmplx.instrVal, Cmplx.evalOT, Cmplx.lookupVal, Cmplx.toQ,
      Cmplx.env0]

namespace FMA

/-- ILI opcodes relevant to fused-multiply-add recognition.  IL_VAR stands
for any leaf whose value is an input to the pattern. -/
inductive ILIOpc
  | IL_FADD
  | IL_FSUB
  | IL_DADD
  | IL_DSUB
  | IL_FMUL
  | IL_DMUL
  | IL_FNEG
  | IL_DNEG
  | IL_VAR
  | IL_OTHER
deriving DecidableEq

/-- One ILI node: opcode and its two operand slots (ILI_OPND 1 and 2). -/
structure IliNode where
  opc : ILIOpc
  opnd1 : Nat
  opnd2 : Nat
deriving DecidableEq

/-- The read-only ILI table, indexed by ILI number. -/
abbrev IliTab := Nat → IliNode

/-- fused_multiply_add_candidate: does ilix match
([-] (([-] A) * ([-] B))) + [-] C?  Returns the ILI of the multiply side
or 0.  The mac flag stands for the POWER/X86-64 build conditional, which
additionally accepts subtract roots and a negated multiply. -/
def fused_multiply_add_candidate (mac : Bool) (t : IliTab) (ilix : Nat) :
    Nat :=
  let node := t ilix
  let lx := node.opnd1
  let rx := node.opnd2
  let matchAdd (mulOpc negOpc : ILIOpc) : Nat :=
    if (t lx).opc = mulOpc then lx
    else if (t rx).opc = mulOpc then rx
    else if mac ∧ (t lx).opc = negOpc ∧ (t (t lx).opnd1).opc = mulOpc then lx
    else if mac ∧ (t rx).opc = negOpc ∧ (t (t rx).opnd1).opc = mulOpc then rx
    else 0
  match node.opc with
  | .IL_FADD => matchAdd .IL_FMUL .IL_FNEG
  | .IL_FSUB => if mac then matchAdd .IL_FMUL .IL_FNEG else 0
  | .IL_DADD => matchAdd .IL_DMUL .IL_DNEG
  | .IL_DSUB => if mac then matchAdd .IL_DMUL .IL_DNEG else 0
  | _ => 0

/-- An instruction operand: at most a temporary reference (the fields the
rewrite pass reads). -/
structure FOp where
  tmps : Option Nat
deriving DecidableEq

/-- fma_mult_has_mult_uses: true when the multiply operand carries no
temporary, or its temporary's use count exceeds one. -/
def fma_mult_has_mult_uses (use : Nat → Int) (multop : FOp) : Bool :=
  match multop.tmps with
  | none => true
  | some t => decide (use t > 1)

/-- Instruction record: the fields of INSTR_LIST that the rewrite pass
reads and overwrites (i_name, ilix, tmps, operands, and for a rewritten
call the intrinsic name). -/
inductive FIName
  | I_FADD
  | I_FSUB
  | I_PICALL
  | I_OTHER
deriving DecidableEq

structure FInstr where
  iname : FIName
  ilix : Nat
  tmps : Option Nat
  operands : List FOp
  intrinsic : Option String
deriving DecidableEq

/-- maybe_generate_fma for the generic-LLVM build (neither POWER nor
X86-64, so mac = false in the candidate test and the documented
llvm.fma intrinsic is used).  idefOps maps a temporary to the operand
list of its defining instruction (tmps->info.idef->operands).  Returns
the overwritten instruction, or none when no fusion is performed; an
overwrite keeps the original instruction's temporary, replacing opcode,
ilix, operands, and intrinsic name with those of the generated call
(overwrite_fma_add updates the add node in place; the call was appended
through gen_call_to_builtin with ad_instr(0, ...), so the copied ilix is
0).  With mac = false the
candidate is always a direct multiply, so fused_multiply_add_canonical_form
only exchanges l and r when the multiply was on the right. -/
def maybe_generate_fma (t : IliTab) (use : Nat → Int)
    (idefOps : Nat → List FOp) (ilix : Nat) (insn : FInstr) :
    Option FInstr :=
  let lhs_ili := (t ilix).opnd1
  let rhs_ili := (t ilix).opnd2
  let binops := insn.operands
  if lhs_ili = rhs_ili then none
  else
    let matched := fused_multiply_add_candidate false t ilix
    if matched = 0 then none
    else
      let l := if matched = lhs_ili then binops.getD 0 ⟨none⟩
               else binops.getD 1 ⟨none⟩
      if fma_mult_has_mult_uses use l then none
      else
        let mopc := (t matched).opc
        if (mopc = .IL_FNEG ∨ mopc = .IL_DNEG) ∧
            fma_mult_has_mult_uses use
              ((idefOps (l.tmps.getD 0)).getD 1 ⟨none⟩) then none
        else
          let opc := (t ilix).opc
          let isSinglePrec := opc = .IL_FADD ∨ opc = .IL_FSUB
          let l2 := if matched = rhs_ili then binops.getD 1 ⟨none⟩
                    else binops.getD 0 ⟨none⟩
          let r2 := if matched = rhs_ili then binops.getD 0 ⟨none⟩
                    else binops.getD 1 ⟨none⟩
          let mulOps := idefOps (l2.tmps.getD 0)
          some { insn with
                  iname := .I_PICALL,
                  ilix := 0,
                  intrinsic :=
                    some (if isSinglePrec then "fma.f32" else "fma.f64"),
                  operands := mulOps.take 2 ++ [r2] }

/-- One step of fma_rewrite: the pass visits an instruction only when it
has an ilix, a defined temporary with positive use count, and operands. -/
def fma_rewrite_step (t : IliTab) (use : Nat → Int)
    (idefOps : Nat → List FOp) (insn : FInstr) : FInstr :=
  if insn.ilix ≠ 0 ∧ insn.tmps.isSome ∧ insn.operands ≠ [] ∧
      0 < (match insn.tmps with | some tp => use tp | none => 0) then
    (maybe_generate_fma t use idefOps insn.ilix insn).getD insn
  else insn

/-- fma_rewrite: the whole pass over the instruction list. -/
def fma_rewrite (t : IliTab) (use : Nat → Int)
    (idefOps : Nat → List FOp) (isns : List FInstr) : List FInstr :=
  isns.map (fma_rewrite_step t use idefOps)

/-- Exact-arithmetic meaning of an ILI dag, with fuel; leaves (IL_VAR)
read the environment at their own index. -/
def evalIli (t : IliTab) (env : Nat → ℚ) : Nat → Nat → ℚ
  | 0, i => match (t i).opc with | .IL_VAR => env i | _ => 0
  | fuel + 1, i =>
    match (t i).opc with
    | .IL_FADD | .IL_DADD =>
      evalIli t env fuel (t i).opnd1 + evalIli t env fuel (t i).opnd2
    | .IL_FSUB | .IL_DSUB =>
      evalIli t env fuel (t i).opnd1 - evalIli t env fuel (t i).opnd2
    | .IL_FMUL | .IL_DMUL =>
      evalIli t env fuel (t i).opnd1 * evalIli t env fuel (t i).opnd2
    | .IL_FNEG | .IL_DNEG => -(evalIli t env fuel (t i).opnd1)
    | .IL_VAR => env i
    | .IL_OTHER => 0

/-- Meaning of the generated fused call: first operand times second plus
third, under a valuation of instruction operands. -/
def fma_call_denote (vo : FOp → ℚ) (args : List FOp) : ℚ :=
  vo (args.getD 0 ⟨none⟩) * vo (args.getD 1 ⟨none⟩) + vo (args.getD 2 ⟨none⟩)

end FMA

/-- C1 (amended): in the generic LLVM build, on a floating add — single
or double precision, with the multiply on either side — whose ILI
matches add(mul(a,b), c) directly and whose multiply-result operand's
temporary is used at most once, the rewrite pass overwrites the add
(keeping its temporary, taking the generated call's ilix 0) with a
single fused multiply-add intrinsic call llvm.fma.f32/f64 whose
arguments are the multiply's two operands followed by the addend, and
whose value a*b+c equals the value of the original add; and on any add
whose multiply-side operand's temporary is used more than once, the
pass leaves the instruction unchanged. -/
theorem fma_fusion_and_mult_use_guard :
    (∀ (t : FMA.IliTab) (use : Nat → Int) (idefOps : Nat → List FMA.FOp)
        (single mulLeft : Bool)
        (ilix mx ax bx cx tAdd tMul : Nat) (aOp bOp cOp : FMA.FOp)
        (env : Nat → ℚ) (vo : FMA.FOp → ℚ),
      t ilix = ⟨(if single then .IL_FADD else .IL_DADD),
        (if mulLeft then mx else cx), (if mulLeft then cx else mx)⟩ →
      t mx = ⟨(if single then .IL_FMUL else .IL_DMUL), ax, bx⟩ →
      (t cx).opc = .IL_VAR →
      (t ax).opc = .IL_VAR →
      (t bx).opc = .IL_VAR →
      mx ≠ 0 → ilix ≠ 0 → mx ≠ cx →
      idefOps tMul = [aOp, bOp] →
      use tMul ≤ 1 → 0 < use tAdd →
      vo aOp = env ax → vo bOp = env bx → vo cOp = env cx →
      FMA.fma_rewrite_step t use idefOps
          ⟨.I_FADD, ilix, some tAdd,
            (if mulLeft then [⟨some tMul⟩, cOp] else [cOp, ⟨some tMul⟩]),
            none⟩
        = ⟨.I_PICALL, 0, some tAdd, [aOp, bOp, cOp],
            some (if single then "fma.f32" else "fma.f64")⟩ ∧
      FMA.fma_call_denote vo [aOp, bOp, cOp] = FMA.evalIli t env 2 ilix) ∧
    (∀ (t : FMA.IliTab) (use : Nat → Int) (idefOps : Nat → List FMA.FOp)
        (insn : FMA.FInstr) (l r : FMA.FOp) (tMul : Nat),
      insn.operands = [l, r] →
      (if FMA.fused_multiply_add_candidate false t insn.ilix
            = (t insn.ilix).opnd1 then l else r).tmps = some tMul →
      1 < use tMul →
      FMA.fma_rewrite_step t use idefOps insn = insn) := by
  constructor
  · intro t use idefOps single mulLeft ilix mx ax bx cx tAdd tMul aOp bOp
      cOp env vo h1 h2 hcx hax hbx hmx0 hilix0 hmc h7 h8 h9 h10 h11 h12
    have hle : ¬ (1 < use tMul) := by omega
    cases single <;> cases mulLeft <;>
      exact ⟨by
        simp [FMA.fma_rewrite_step, FMA.maybe_generate_fma,
          FMA.fused_multiply_add_candidate, FMA.fma_mult_has_mult_uses,
          h1, h2, h7, hilix0, h9, hmx0, hmc, Ne.symm hmc, hle, hcx], by
        simp [FMA.fma_call_denote, FMA.evalIli, h1, h2, hcx, hax, hbx,
          h10, h11, h12] <;> ring⟩
  · intro t use idefOps insn l r tMul hops hsel huse
    unfold FMA.fma_rewrite_step
    by_cases hguard : insn.ilix ≠ 0 ∧ insn.tmps.isSome ∧
        insn.operands ≠ [] ∧
        0 < (match insn.tmps with | some tp => use tp | none => 0)
    · rw [if_pos hguard]
      have hnone : FMA.maybe_generate_fma t use idefOps insn.ilix insn
          = none := by
        unfold FMA.maybe_generate_fma
        by_cases heq : (t insn.ilix).opnd1 = (t insn.ilix).opnd2
        · simp [heq]
        · rw [if_neg heq]
          by_cases hm : FMA.fused_multiply_add_candidate false t insn.ilix
              = 0
          · simp [hm]
          · rw [if_neg hm]
            have hmu : FMA.fma_mult_has_mult_uses use
                (if FMA.fused_multiply_add_candidate false t insn.ilix
                    = (t insn.ilix).opnd1 then insn.operands.getD 0 ⟨none⟩
                  else insn.operands.getD 1 ⟨none⟩) = true := by
              by_cases hpos : FMA.fused_multiply_add_candidate false t
                  insn.ilix = (t insn.ilix).opnd1 <;>
                simp [hpos, hops] at hsel ⊢ <;>
                simp [FMA.fma_mult_has_mult_uses, hsel, huse]
            simp only [hmu, if_true]
      simp [hnone]
    · rw [if_neg hguard]

/-- Concrete ILI table for the FMA witness: node 10 is FADD(11, 12),
node 11 is FMUL(1, 2), everything else a leaf. -/
def fmaWitnessTab : FMA.IliTab := fun i =>
  if i = 10 then ⟨.IL_FADD, 11, 12⟩
  else if i = 11 then ⟨.IL_FMUL, 1, 2⟩
  else ⟨.IL_VAR, 0, 0⟩

/-- Concrete ILI table for the double-precision multiply-on-the-right
FMA witness: node 10 is DADD(12, 11), node 11 is DMUL(1, 2). -/
def fmaWitnessTabD : FMA.IliTab := fun i =>
  if i = 10 then ⟨.IL_DADD, 12, 11⟩
  else if i = 11 then ⟨.IL_DMUL, 1, 2⟩
  else ⟨.IL_VAR, 0, 0⟩

/-- Witness for the FMA fusion theorem: the fusion half applied to a
single-precision multiply-on-the-left add and to a double-precision
multiply-on-the-right add, and the guard half at a concrete input. -/
theorem fma_fusion_and_mult_use_guard_witness :
    (FMA.fma_rewrite_step fmaWitnessTab (fun _ => 1)
        (fun i => if i = 5 then [⟨some 6⟩, ⟨some 7⟩] else [])
        ⟨.I_FADD, 10, some 8, [⟨some 5⟩, ⟨some 9⟩], none⟩
      = ⟨.I_PICALL, 0, some 8, [⟨some 6⟩, ⟨some 7⟩, ⟨some 9⟩],
          some "fma.f32"⟩ ∧
      FMA.fma_call_denote (fun _ => (0 : ℚ))
          [⟨some 6⟩, ⟨some 7⟩, ⟨some 9⟩]
        = FMA.evalIli fmaWitnessTab (fun _ => (0 : ℚ)) 2 10) ∧
    (FMA.fma_rewrite_step fmaWitnessTabD (fun _ => 1)
        (fun i => if i = 5 then [⟨some 6⟩, ⟨some 7⟩] else [])
        ⟨.I_FADD, 10, some 8, [⟨some 9⟩, ⟨some 5⟩], none⟩
      = ⟨.I_PICALL, 0, some 8, [⟨some 6⟩, ⟨some 7⟩, ⟨some 9⟩],
          some "fma.f64"⟩ ∧
      FMA.fma_call_denote (fun _ => (0 : ℚ))
          [⟨some 6⟩, ⟨some 7⟩, ⟨some 9⟩]
        = FMA.evalIli fmaWitnessTabD (fun _ => (0 : ℚ)) 2 10) ∧
    FMA.fma_rewrite_step fmaWitnessTab (fun _ => 2)
        (fun i => if i = 5 then [⟨some 6⟩, ⟨some 7⟩] else [])
        ⟨.I_FADD, 10, some 8, [⟨some 5⟩, ⟨some 9⟩], none⟩
      = ⟨.I_FADD, 10, some 8, [⟨some 5⟩, ⟨some 9⟩], none⟩ := by
  refine ⟨?_, ?_, ?_⟩
  · exact fma_fusion_and_mult_use_guard.1 fmaWitnessTab (fun _ => 1)
      (fun i => if i = 5 then [⟨some 6⟩, ⟨some 7⟩] else []) true true
      10 11 1 2 12 8 5 ⟨some 6⟩ ⟨some 7⟩ ⟨some 9⟩
      (fun _ => (0 : ℚ)) (fun _ => (0 : ℚ))
      (by decide) (by decide) (by decide) (by decide) (by decide)
      (by decide) (by decide) (by decide) (by decide) (by decide)
      (by decide) rfl rfl rfl
  · exact fma_fusion_and_mult_use_guard.1 fmaWitnessTabD (fun _ => 1)
      (fun i => if i = 5 then [⟨some 6⟩, ⟨some 7⟩] else []) false false
      10 11 1 2 12 8 5 ⟨some 6⟩ ⟨some 7⟩ ⟨some 9⟩
      (fun _ => (0 : ℚ)) (fun _ => (0 : ℚ))
      (by decide) (by decide) (by decide) (by decide) (by decide)
      (by decide) (by decide) (by decide) (by decide) (by decide)
      (by decide) rfl rfl rfl
  · exact fma_fusion_and_mult_use_guard.2 fmaWitnessTab (fun _ => 2)
      (fun i => if i = 5 then [⟨some 6⟩, ⟨some 7⟩] else [])
      ⟨.I_FADD, 10, some 8, [⟨some 5⟩, ⟨some 9⟩], none⟩
      ⟨some 5⟩ ⟨some 9⟩ 5 rfl (by decide) (by decide)

/-- Concrete ILI table for the subtract counterexample: node 10 is
FSUB(11, 12) — the single-negation form sub(mul(a,b), c) =
add(mul(a,b), -c) — with node 11 the multiply FMUL(1, 2). -/
def fmaSubWitnessTab : FMA.IliTab := fun i =>
  if i = 10 then ⟨.IL_FSUB, 11, 12⟩
  else if i = 11 then ⟨.IL_FMUL, 1, 2⟩
  else ⟨.IL_VAR, 0, 0⟩

/-- Counterexample to C1 as frozen: in the generic LLVM build a floating
subtract whose ILI matches add(mul(a,b), c) through the single negation
of the subtrahend, with the multiply result used exactly once, is not a
fusion candidate at all (the candidate test returns 0), so the rewrite
pass leaves the instruction unchanged instead of replacing it with a
fused multiply-add call. -/
theorem fma_generic_subtract_not_fused :
    FMA.fused_multiply_add_candidate false fmaSubWitnessTab 10 = 0 ∧
    FMA.fma_rewrite_step fmaSubWitnessTab (fun _ => 1)
        (fun i => if i = 5 then [⟨some 6⟩, ⟨some 7⟩] else [])
        ⟨.I_FSUB, 10, some 8, [⟨some 5⟩, ⟨some 9⟩], none⟩
      = ⟨.I_FSUB, 10, some 8, [⟨some 5⟩, ⟨some 9⟩], none⟩ := by
  constructor
  · decide
  · decide
namespace CSE

/-- The IL expression shapes relevant to the common-subexpression cache:
a constant leaf, a two-operand arithmetic node, an explicit IL_CSE
reference to a shared node, a call (reached through a result-move), and
a result-move (IL_DFRx) wrapping a call. -/
inductive CallKind
  | jsr
  | qjsr
  | gjsr
deriving DecidableEq

inductive CgNode
  | leaf (v : Int)
  | bin (a b : Nat)
  | cse (x : Nat)
  | callNode (k : CallKind)
  | dfr (c : Nat)
deriving DecidableEq

/-- Operands produced by lowering. -/
inductive COp
  | tmp (n : Nat)
  | constv (v : Int)
deriving DecidableEq

inductive CIName
  | binI
  | callI
deriving DecidableEq

structure CInstr where
  iname : CIName
  tmps : Option Nat
  opnds : List COp
deriving DecidableEq

/-- Lowering state: csedList (entries pair the shared ILI number with the
recorded operand), the per-ILI reference counter ILI_COUNT, the emitted
instruction list, and the fresh-temporary counter. -/
structure CSt where
  cselist : List (Nat × Option COp)
  count : Nat → Nat
  instrs : List CInstr
  nextTmp : Nat

/-- get_csed_operand: the recorded entry for an ILI, if it is on the
csedList (none when the ILI is not listed). -/
def get_csed_operand (l : List (Nat × Option COp)) (x : Nat) :
    Option (Option COp) :=
  (l.find? (fun e => e.1 = x)).map Prod.snd

/-- set_csed_operand: record the operand for a listed ILI (an operand with
a temporary is re-wrapped by make_tmp_op around the same temporary, which
this model represents by the operand itself). -/
def set_csed_operand (st : CSt) (x : Nat) (op : COp) : CSt :=
  { st with cselist :=
      st.cselist.map (fun e => if e.1 = x then (e.1, some op) else e) }

/-- add_to_cselist: append an entry for the ILI unless already present. -/
def add_to_cselist (st : CSt) (x : Nat) : CSt :=
  if (get_csed_operand st.cselist x).isSome then st
  else { st with cselist := st.cselist ++ [(x, none)] }

/-- clear_csed_list: zero the reference count of every listed ILI and
drop every recorded operand. -/
def clear_csed_list (st : CSt) : CSt :=
  { st with
    cselist := st.cselist.map (fun e => (e.1, none)),
    count := fun j => if st.cselist.any (fun e => e.1 = j) then 0
                      else st.count j }

/-- gen_copy_op: a copy of an operand referencing the same temporary. -/
def gen_copy_op (o : COp) : COp := o

/-- ILI_COUNT(i)++ as a counter-map transformer. -/
def bumpCount (i : Nat) (c : Nat → Nat) : Nat → Nat :=
  fun j => if j = i then c j + 1 else c j

/-- The common tail of gen_llvm_expr: if the node is on the csedList its
operand is recorded, and its ILI_COUNT is incremented. -/
def finish (i : Nat) (op : COp) (st : CSt) : COp × CSt :=
  let st1 := if (get_csed_operand st.cselist i).isSome then
              set_csed_operand st i op
             else st
  (op, { st1 with count := bumpCount i st1.count })

/-- Append an instruction. -/
def emit (ins : CInstr) (st : CSt) : CSt :=
  { st with instrs := st.instrs ++ [ins] }

/-- gen_llvm_expr restricted to the node shapes above, with fuel for the
recursion (the ILI is a dag, so any fuel at least its depth is enough).
A leaf produces a constant with no instruction; a binary node lowers its
operands and emits one instruction with a fresh temporary; an IL_CSE
reference looks up the recorded operand for the shared node, regenerates
it when its count was cleared, and otherwise returns a copy naming the
same temporary; a call emits a call instruction; a result-move over a
QJSR/GJSR call always regenerates, while over other calls it consults and
maintains the csedList.  The asserts of the source (missing cse entry,
missing recorded operand) are modelled as none. -/
def gen_expr (t : Nat → CgNode) : Nat → Nat → CSt → Option (COp × CSt)
  | 0, _, _ => none
  | fuel + 1, i, st =>
    match t i with
    | .leaf v => some (finish i (.constv v) st)
    | .bin a b =>
      match gen_expr t fuel a st with
      | none => none
      | some (oa, st1) =>
        match gen_expr t fuel b st1 with
        | none => none
        | some (ob, st2) =>
          let tm := st2.nextTmp
          let st3 := emit ⟨.binI, some tm, [oa, ob]⟩
            { st2 with nextTmp := tm + 1 }
          some (finish i (.tmp tm) st3)
    | .callNode _ =>
      let tm := st.nextTmp
      let st1 := emit ⟨.callI, some tm, []⟩ { st with nextTmp := tm + 1 }
      some (finish i (.tmp tm) st1)
    | .cse x =>
      match get_csed_operand st.cselist x with
      | none => none
      | some rec1 =>
        if st.count x = 0 then
          match gen_expr t fuel x st with
          | none => none
          | some (op, st1) => some (finish i op st1)
        else
          match rec1 with
          | some o => some (finish i (gen_copy_op o) st)
          | none => none
    | .dfr c =>
      match t c with
      | .callNode .qjsr =>
        match gen_expr t fuel c st with
        | none => none
        | some (op, st1) => some (finish i op st1)
      | .callNode .gjsr =>
        match gen_expr t fuel c st with
        | none => none
        | some (op, st1) => some (finish i op st1)
      | _ =>
        match get_csed_operand st.cselist c with
        | none =>
          match gen_expr t fuel c st with
          | none => none
          | some (op, st1) =>
            let st2 := add_to_cselist st1 c
            some (finish i op (set_csed_operand st2 c op))
        | some rec1 =>
          if st.count c = 0 then
            match gen_expr t fuel c st with
            | none => none
            | some (op, st1) => some (finish i op st1)
          else
            match rec1 with
            | none =>
              match gen_expr t fuel c st with
              | none => none
              | some (op, st1) => some (finish i op (set_csed_operand st1 c op))
            | some o => some (finish i (gen_copy_op o) st)

/-- The label handling of schedule: a basic-block label that is a branch
target (a user label with DEFD set or a compiler-created symbol) clears
the csedList before the label statement is made. -/
def schedule_label_step (hasLabel defd ccsym : Bool) (st : CSt) : CSt :=
  if hasLabel ∧ (defd ∨ ccsym) then clear_csed_list st else st

/-- Recording an operand for x changes only how x is looked up: the entry
keeps existing and now holds the operand. -/
theorem get_csed_set (l : List (Nat × Option COp)) (x : Nat) (op : COp) :
    get_csed_operand (l.map (fun e => if e.1 = x then (e.1, some op) else e))
        x
      = (get_csed_operand l x).map (fun _ => some op) := by
  induction l with
  | nil => rfl
  | cons e tl ih =>
    by_cases h : e.1 = x
    · simp [get_csed_operand, List.find?, h]
    · simpa [get_csed_operand, List.find?, h] using ih

/-- Clearing the csedList keeps the entries but drops every recorded
operand. -/
theorem get_csed_clear (l : List (Nat × Option COp)) (x : Nat) :
    get_csed_operand (l.map (fun e => (e.1, none))) x
      = (get_csed_operand l x).map (fun _ => none) := by
  induction l with
  | nil => rfl
  | cons e tl ih =>
    by_cases h : e.1 = x
    · simp [get_csed_operand, List.find?, h]
    · simpa [get_csed_operand, List.find?, h] using ih

end CSE

/-- C2: (a) a CSE reference to a node whose operand is recorded and whose
count is not cleared emits no instruction and yields a copy of the
recorded operand — the same temporary, nothing recomputed; (b) lowering a
listed (shared) node emits its instruction sequence once, records the
resulting operand in the cse list, and increments the node's count; (c)
clear_csed_list zeroes the count of every listed node and drops every
recorded operand; (d) schedule clears the cse list exactly at a label that
is a branch target (a defined user label or a compiler-created one). -/
theorem cse_reuse_record_and_clear :
    (∀ (t : Nat → CSE.CgNode) (st : CSE.CSt) (x y fuel : Nat) (o : CSE.COp),
      t y = .cse x →
      CSE.get_csed_operand st.cselist x = some (some o) →
      CSE.get_csed_operand st.cselist y = none →
      st.count x ≠ 0 →
      CSE.gen_expr t (fuel + 1) y st
        = some (o, { st with count := CSE.bumpCount y st.count })) ∧
    (∀ (t : Nat → CSE.CgNode) (st : CSE.CSt) (x a b : Nat) (va vb : Int)
        (r : Option CSE.COp),
      t x = .bin a b → t a = .leaf va → t b = .leaf vb →
      CSE.get_csed_operand st.cselist x = some r →
      CSE.get_csed_operand st.cselist a = none →
      CSE.get_csed_operand st.cselist b = none →
      CSE.gen_expr t 2 x st
        = some (.tmp st.nextTmp,
            { cselist := st.cselist.map (fun e =>
                if e.1 = x then (e.1, some (CSE.COp.tmp st.nextTmp)) else e),
              count := CSE.bumpCount x (CSE.bumpCount b
                (CSE.bumpCount a st.count)),
              instrs := st.instrs ++
                [⟨.binI, some st.nextTmp, [.constv va, .constv vb]⟩],
              nextTmp := st.nextTmp + 1 }) ∧
      CSE.get_csed_operand
          (st.cselist.map (fun e =>
            if e.1 = x then (e.1, some (CSE.COp.tmp st.nextTmp)) else e)) x
        = some (some (.tmp st.nextTmp))) ∧
    (∀ (st : CSE.CSt) (x : Nat),
      (st.cselist.any (fun e => e.1 = x) →
        (CSE.clear_csed_list st).count x = 0) ∧
      CSE.get_csed_operand (CSE.clear_csed_list st).cselist x
        = (CSE.get_csed_operand st.cselist x).map (fun _ => none)) ∧
    (∀ (defd ccsym : Bool) (st : CSE.CSt),
      CSE.schedule_label_step true defd ccsym st
        = if defd ∨ ccsym then CSE.clear_csed_list st else st) := by
  refine ⟨?_, ?_, ?_, ?_⟩
  · intro t st x y fuel o hy hx hynone hcnt
    simp [CSE.gen_expr, hy, hx, hcnt, CSE.finish, CSE.gen_copy_op, hynone]
  · intro t st x a b va vb r hx ha hb hxl hal hbl
    constructor
    · simp [CSE.gen_expr, hx, ha, hb, CSE.finish, hal, hbl, CSE.emit,
        hxl, CSE.set_csed_operand]
    · rw [CSE.get_csed_set, hxl]
      rfl
  · intro st x
    constructor
    · intro hmem
      simp [CSE.clear_csed_list, hmem]
    · exact CSE.get_csed_clear st.cselist x
  · intro defd ccsym st
    simp [CSE.schedule_label_step]

/-- Concrete node table for the CSE witness: node 3 is a CSE reference to
node 1, which is an add of the leaves 4 and 5. -/
def cseWitnessTab : Nat → CSE.CgNode := fun i =>
  if i = 3 then .cse 1
  else if i = 1 then .bin 4 5
  else if i = 4 then .leaf 11
  else .leaf 22

/-- Concrete state for the CSE witness: node 1 is listed with operand
temporary 7 recorded and count 1. -/
def cseWitnessSt : CSE.CSt := ⟨[(1, some (.tmp 7))], fun _ => 1, [], 9⟩

/-- Concrete state for the record half of the CSE witness: node 1 is
listed with no operand recorded yet. -/
def cseWitnessSt0 : CSE.CSt := ⟨[(1, none)], fun _ => 0, [], 9⟩

/-- Witness for the CSE theorem: all four halves applied at concrete
inputs. -/
theorem cse_reuse_record_and_clear_witness :
    CSE.gen_expr cseWitnessTab 1 3 cseWitnessSt
      = some (.tmp 7,
          { cseWitnessSt with
            count := CSE.bumpCount 3 cseWitnessSt.count }) ∧
    (CSE.gen_expr cseWitnessTab 2 1 cseWitnessSt0
      = some (.tmp 9,
          { cselist := cseWitnessSt0.cselist.map (fun e =>
              if e.1 = 1 then (e.1, some (CSE.COp.tmp 9)) else e),
            count := CSE.bumpCount 1 (CSE.bumpCount 5
              (CSE.bumpCount 4 cseWitnessSt0.count)),
            instrs := [⟨.binI, some 9, [.constv 11, .constv 22]⟩],
            nextTmp := 10 }) ∧
      CSE.get_csed_operand
          (cseWitnessSt0.cselist.map (fun e =>
            if e.1 = 1 then (e.1, some (CSE.COp.tmp 9)) else e)) 1
        = some (some (.tmp 9))) ∧
    ((cseWitnessSt.cselist.any (fun e => e.1 = 1) →
        (CSE.clear_csed_list cseWitnessSt).count 1 = 0) ∧
      CSE.get_csed_operand (CSE.clear_csed_list cseWitnessSt).cselist 1
        = (CSE.get_csed_operand cseWitnessSt.cselist 1).map
            (fun _ => none)) ∧
    CSE.schedule_label_step true true false cseWitnessSt
      = if (true : Bool) ∨ (false : Bool) then
          CSE.clear_csed_list cseWitnessSt
        else cseWitnessSt := by
  refine ⟨?_, ?_, ?_, ?_⟩
  · exact cse_reuse_record_and_clear.1 cseWitnessTab cseWitnessSt 1 3 0
      (.tmp 7) (by decide) (by decide) (by decide) (by decide)
  · have h := cse_reuse_record_and_clear.2.1 cseWitnessTab cseWitnessSt0
      1 4 5 11 22 none (by decide) (by decide) (by decide) (by decide)
      (by decide) (by decide)
    exact ⟨h.1, h.2⟩
  · exact cse_reuse_record_and_clear.2.2.1 cseWitnessSt 1
  · exact cse_reuse_record_and_clear.2.2.2 true false cseWitnessSt

namespace CSE

/-- The key of a csedList entry is untouched by set_csed_operand, so the
whole find-then-project of get_csed_operand commutes with it. -/
theorem find_after_set (l : List (Nat × Option COp)) (x y : Nat)
    (op : COp) :
    get_csed_operand
        (l.map (fun e => if e.1 = x then (e.1, some op) else e)) y
      = (l.find? (fun e => decide (e.1 = y))).map
          (fun e => ((if e.1 = x then (e.1, some op) else e) : _).2) := by
  unfold get_csed_operand
  rw [List.find?_map]
  have hp : ((fun (e : Nat × Option COp) => decide (e.1 = y)) ∘
      (fun e => if e.1 = x then (e.1, some op) else e))
      = (fun (e : Nat × Option COp) => decide (e.1 = y)) := by
    funext e
    by_cases hex : e.1 = x <;> simp [Function.comp, hex]
  rw [hp, Option.map_map]
  rfl

/-- Recording an operand for x does not create an entry for an unlisted
ILI y. -/
theorem get_csed_set_ne (l : List (Nat × Option COp)) (x y : Nat)
    (op : COp) (h : get_csed_operand l y = none) :
    get_csed_operand
        (l.map (fun e => if e.1 = x then (e.1, some op) else e)) y
      = none := by
  rw [find_after_set]
  unfold get_csed_operand at h
  cases hf : l.find? (fun e => decide (e.1 = y)) with
  | none => simp
  | some e => rw [hf] at h; simp at h

/-- Appending an entry for c leaves lookups of other ILIs unchanged. -/
theorem get_csed_append_ne (l : List (Nat × Option COp)) (c y : Nat)
    (v : Option COp) (h : get_csed_operand l y = none) (hyc : y ≠ c) :
    get_csed_operand (l ++ [(c, v)]) y = none := by
  unfold get_csed_operand at h ⊢
  rw [List.find?_append]
  cases hf : l.find? (fun e => decide (e.1 = y)) with
  | none =>
    simp only [hf, Option.none_or]
    simp [List.find?, Ne.symm hyc]
  | some e => rw [hf] at h; simp at h

/-- Appending an entry for an unlisted c makes its lookup yield the new
entry. -/
theorem get_csed_append_self (l : List (Nat × Option COp)) (c : Nat)
    (v : Option COp) (h : get_csed_operand l c = none) :
    get_csed_operand (l ++ [(c, v)]) c = some v := by
  unfold get_csed_operand at h ⊢
  rw [List.find?_append]
  cases hf : l.find? (fun e => decide (e.1 = c)) with
  | none =>
    simp only [hf, Option.none_or]
    simp [List.find?]
  | some e => rw [hf] at h; simp at h

end CSE

/-- C10: (a) a result-move over a QJSR/GJSR call always regenerates the
call expression — a fresh call instruction is emitted and a fresh
temporary returned even when an operand for that call is already recorded
in the cse list; (b) a result-move over any other call whose operand is
recorded (count not cleared) returns a copy of the recorded operand with
no instruction emitted, so the call instruction is emitted only once; (c)
the first result-move reference to such a call emits the call once, adds
it to the cse list, and records the resulting operand. -/
theorem qjsr_gjsr_never_csed_other_calls_reused :
    (∀ (t : Nat → CSE.CgNode) (st : CSE.CSt) (y c fuel : Nat)
        (o : CSE.COp) (k : CSE.CallKind),
      t y = .dfr c → t c = .callNode k → (k = .qjsr ∨ k = .gjsr) →
      CSE.get_csed_operand st.cselist c = some (some o) →
      CSE.get_csed_operand st.cselist y = none →
      CSE.gen_expr t (fuel + 2) y st
        = some (.tmp st.nextTmp,
            { cselist := st.cselist.map (fun e =>
                if e.1 = c then (e.1, some (CSE.COp.tmp st.nextTmp)) else e),
              count := CSE.bumpCount y (CSE.bumpCount c st.count),
              instrs := st.instrs ++ [⟨.callI, some st.nextTmp, []⟩],
              nextTmp := st.nextTmp + 1 })) ∧
    (∀ (t : Nat → CSE.CgNode) (st : CSE.CSt) (y c fuel : Nat)
        (o : CSE.COp),
      t y = .dfr c → t c = .callNode .jsr →
      CSE.get_csed_operand st.cselist c = some (some o) →
      st.count c ≠ 0 →
      CSE.get_csed_operand st.cselist y = none →
      CSE.gen_expr t (fuel + 1) y st
        = some (o, { st with count := CSE.bumpCount y st.count })) ∧
    (∀ (t : Nat → CSE.CgNode) (st : CSE.CSt) (y c fuel : Nat),
      t y = .dfr c → t c = .callNode .jsr →
      CSE.get_csed_operand st.cselist c = none →
      CSE.get_csed_operand st.cselist y = none →
      y ≠ c →
      CSE.gen_expr t (fuel + 2) y st
        = some (.tmp st.nextTmp,
            { cselist := (st.cselist ++
                  [(c, (none : Option CSE.COp))]).map (fun e =>
                if e.1 = c then (e.1, some (CSE.COp.tmp st.nextTmp)) else e),
              count := CSE.bumpCount y (CSE.bumpCount c st.count),
              instrs := st.instrs ++ [⟨.callI, some st.nextTmp, []⟩],
              nextTmp := st.nextTmp + 1 }) ∧
      CSE.get_csed_operand
          ((st.cselist ++ [(c, (none : Option CSE.COp))]).map (fun e =>
            if e.1 = c then (e.1, some (CSE.COp.tmp st.nextTmp)) else e)) c
        = some (some (.tmp st.nextTmp))) := by
  refine ⟨?_, ?_, ?_⟩
  · intro t st y c fuel o k hy hc hk hcl hyl
    have hyn2 := CSE.get_csed_set_ne st.cselist c y (.tmp st.nextTmp) hyl
    rcases hk with hk | hk <;> subst hk <;>
      simp [CSE.gen_expr, hy, hc, CSE.finish, CSE.emit, hcl, hyn2,
        CSE.set_csed_operand, CSE.gen_copy_op]
  · intro t st y c fuel o hy hc hcl hcnt hyl
    simp [CSE.gen_expr, hy, hc, CSE.finish, hcl, hcnt, hyl,
      CSE.gen_copy_op]
  · intro t st y c fuel hy hc hcl hyl hyc
    have hfind : (st.cselist ++ [(c, none)]).find?
        (fun e => decide (e.1 = c)) = some (c, none) := by
      rw [List.find?_append]
      have hf0 : st.cselist.find? (fun e => decide (e.1 = c)) = none := by
        unfold CSE.get_csed_operand at hcl
        exact Option.map_eq_none.mp hcl
      simp [hf0, List.find?]
    have happ : CSE.get_csed_operand (st.cselist ++ [(c, none)]) y
        = none := CSE.get_csed_append_ne st.cselist c y none hyl hyc
    have hyn2 := CSE.get_csed_set_ne (st.cselist ++ [(c, none)]) c y
      (.tmp st.nextTmp) happ
    have hyn3 := hyn2
    simp at hyn3
    constructor
    · simp [CSE.gen_expr, hy, hc, CSE.finish, CSE.emit, hcl, hyl, hyn2,
        hyn3, CSE.set_csed_operand, CSE.add_to_cselist, CSE.gen_copy_op]
    · rw [CSE.find_after_set, hfind]
      simp

/-- Node tables for the call-CSE witness: node 2 is a result-move over
node 1, node 1 a QJSR call (first table) or a JSR call (second table). -/
def qjsrWitnessTab : Nat → CSE.CgNode := fun i =>
  if i = 2 then .dfr 1
  else if i = 1 then .callNode .qjsr
  else .leaf 0

def jsrWitnessTab : Nat → CSE.CgNode := fun i =>
  if i = 2 then .dfr 1
  else if i = 1 then .callNode .jsr
  else .leaf 0

def callWitnessSt : CSE.CSt := ⟨[(1, some (.tmp 7))], fun _ => 1, [], 9⟩

def callWitnessSt0 : CSE.CSt := ⟨[], fun _ => 0, [], 9⟩

/-- Witness for the call-CSE theorem: all three halves applied at
concrete inputs. -/
theorem qjsr_gjsr_never_csed_other_calls_reused_witness :
    CSE.gen_expr qjsrWitnessTab 2 2 callWitnessSt
      = some (.tmp 9,
          { cselist := callWitnessSt.cselist.map (fun e =>
              if e.1 = 1 then (e.1, some (CSE.COp.tmp 9)) else e),
            count := CSE.bumpCount 2 (CSE.bumpCount 1 callWitnessSt.count),
            instrs := [⟨.callI, some 9, []⟩],
            nextTmp := 10 }) ∧
    CSE.gen_expr jsrWitnessTab 1 2 callWitnessSt
      = some (.tmp 7,
          { callWitnessSt with
            count := CSE.bumpCount 2 callWitnessSt.count }) ∧
    (CSE.gen_expr jsrWitnessTab 2 2 callWitnessSt0
      = some (.tmp 9,
          { cselist := (callWitnessSt0.cselist ++
                [(1, (none : Option CSE.COp))]).map
              (fun (e : Nat × Option CSE.COp) =>
              if e.1 = 1 then (e.1, some (CSE.COp.tmp 9)) else e),
            count := CSE.bumpCount 2 (CSE.bumpCount 1 callWitnessSt0.count),
            instrs := [⟨.callI, some 9, []⟩],
            nextTmp := 10 }) ∧
      CSE.get_csed_operand
          ((callWitnessSt0.cselist ++ [(1, (none : Option CSE.COp))]).map
            (fun (e : Nat × Option CSE.COp) =>
              if e.1 = 1 then (e.1, some (CSE.COp.tmp 9)) else e)) 1
        = some (some (.tmp 9))) := by
  refine ⟨?_, ?_, ?_⟩
  · exact qjsr_gjsr_never_csed_other_calls_reused.1 qjsrWitnessTab
      callWitnessSt 2 1 0 (.tmp 7) .qjsr (by decide) (by decide)
      (Or.inl rfl) (by decide) (by decide)
  · exact qjsr_gjsr_never_csed_other_calls_reused.2.1 jsrWitnessTab
      callWitnessSt 2 1 0 (.tmp 7) (by decide) (by decide) (by decide)
      (by decide) (by decide)
  · exact qjsr_gjsr_never_csed_other_calls_reused.2.2 jsrWitnessTab
      callWitnessSt0 2 1 0 (by decide) (by decide) (by decide)
      (by decide) (by decide)

namespace CallAbi

/-- Operands of the call-return handling: the call's result temporary, a
buffer address, or a copy of the hidden first argument operand. -/
inductive ROp
  | tmp (t : Nat)
  | addrOp (a : Nat)
  | firstArg
deriving DecidableEq

/-- The instructions the return handling can emit: the call itself, and a
store of an operand to a buffer address. -/
inductive RInstr
  | call (tmp : Nat)
  | store (src : ROp) (addr : Nat)
deriving DecidableEq

/-- The inputs that steer the return-value part of gen_call_expr. -/
structure CallRetInput where
  abiReturnsVoid : Bool
  hasSret : Bool
  firstArgIsGargret : Bool
  retIsStructOrUnion : Bool
  retDtypeSet : Bool
deriving DecidableEq

/-- The return-value handling tail of gen_call_expr.  Before emitting the
call: a void ABI return with sret and a struct/union ret dtype makes the
result the hidden first argument; a non-void ABI return with a ret dtype
expected makes the result the call's temporary.  After emitting the call:
when the IL handed a GARGRET hidden pointer but the ABI has no sret, a
store of the register result into the GARGRET buffer is emitted, and for
a struct/union ret dtype the result operand becomes the buffer address. -/
def gen_call_expr_ret (inp : CallRetInput) (callTmp : Nat)
    (gargretAddr : Nat) : List RInstr × Option ROp :=
  let result0 : Option ROp :=
    if inp.abiReturnsVoid then
      if inp.hasSret ∧ inp.retIsStructOrUnion then some .firstArg else none
    else
      if inp.retDtypeSet then some (.tmp callTmp) else none
  if inp.firstArgIsGargret ∧ ¬inp.hasSret then
    ([.call callTmp, .store (.tmp callTmp) gargretAddr],
      if inp.retIsStructOrUnion then some (.addrOp gargretAddr)
      else result0)
  else ([.call callTmp], result0)

/-- Replay of the emitted instructions over a memory (addresses to
values); temporaries are read from an environment. -/
def runMem (env : Nat → ℚ) : List RInstr → (Nat → ℚ) → (Nat → ℚ)
  | [], m => m
  | .call _ :: rest, m => runMem env rest m
  | .store (.tmp t) a :: rest, m =>
    runMem env rest (fun j => if j = a then env t else m j)
  | .store _ _ :: rest, m => runMem env rest m

end CallAbi

/-- C5: when the IL expects an aggregate through a GARGRET hidden pointer
but the ABI returns in registers (no sret), the lowered call is followed
by a store of the call's register result into the buffer addressed by the
hidden pointer; when the declared return dtype is a struct or union the
call's result operand is the buffer address; and replaying the emitted
instructions over any memory leaves the register result readable at the
buffer address, so a subsequent load reproduces the returned value. -/
theorem gargret_register_return_stored_to_buffer :
    (∀ (abiVoid retDtypeSet : Bool) (callTmp gargretAddr : Nat),
      (CallAbi.gen_call_expr_ret
          ⟨abiVoid, false, true, true, retDtypeSet⟩ callTmp gargretAddr)
        = ([.call callTmp, .store (.tmp callTmp) gargretAddr],
            some (.addrOp gargretAddr))) ∧
    (∀ (abiVoid retDtypeSet : Bool) (callTmp gargretAddr : Nat),
      (CallAbi.gen_call_expr_ret
          ⟨abiVoid, false, true, false, retDtypeSet⟩ callTmp
          gargretAddr).1
        = [.call callTmp, .store (.tmp callTmp) gargretAddr]) ∧
    (∀ (env : Nat → ℚ) (m : Nat → ℚ) (abiVoid retStruct retDtypeSet : Bool)
        (callTmp gargretAddr : Nat),
      CallAbi.runMem env
          (CallAbi.gen_call_expr_ret
            ⟨abiVoid, false, true, retStruct, retDtypeSet⟩ callTmp
            gargretAddr).1 m gargretAddr
        = env callTmp) := by
  refine ⟨?_, ?_, ?_⟩
  · intro abiVoid retDtypeSet callTmp gargretAddr
    simp [CallAbi.gen_call_expr_ret]
  · intro abiVoid retDtypeSet callTmp gargretAddr
    simp [CallAbi.gen_call_expr_ret]
  · intro env m abiVoid retStruct retDtypeSet callTmp gargretAddr
    simp [CallAbi.gen_call_expr_ret, CallAbi.runMem]

namespace DCE

/-- Instruction opcodes distinguished by the dead-code pass. -/
inductive DIName
  | I_STORE
  | I_CALL
  | I_INVOKE
  | I_ATOMICRMW
  | I_OTHER
deriving DecidableEq

/-- The fields of INSTR_LIST the dead-code pass reads: opcode, the
DELETABLE flag, the defined temporary, and the temporaries referenced by
OT_TMP operands. -/
structure DInstr where
  iname : DIName
  deletable : Bool
  tmps : Option Nat
  opndTmps : List Nat
deriving DecidableEq

/-- remove_instr's use-count maintenance: every OT_TMP operand of the
removed instruction has its temporary's use count decremented. -/
def dec_operands (i : DInstr) (u : Nat → Int) : Nat → Int :=
  i.opndTmps.foldl (fun acc t => fun j => if j = t then acc j - 1 else acc j)
    u

/-- The first removal test: a store instruction whose DELETABLE flag is
set. -/
def deletable_store (i : DInstr) : Bool :=
  i.iname == .I_STORE && i.deletable

/-- The second removal test: not a call, invoke, or atomicrmw, defining a
temporary whose use count is at most zero. -/
def dead_def (u : Nat → Int) (i : DInstr) : Bool :=
  (i.iname != .I_CALL && i.iname != .I_INVOKE && i.iname != .I_ATOMICRMW) &&
    (match i.tmps with
      | some tq => decide (u tq ≤ 0)
      | none => false)

/-- remove_dead_instrs walking the list backward; the argument list is
most-recent-first.  Removal decrements the use counts of the removed
instruction's operands before moving to the previous instruction, so a
removal can make an earlier instruction dead. -/
def remove_dead_rev (u : Nat → Int) : List DInstr → List DInstr × (Nat → Int)
  | [] => ([], u)
  | i :: rest =>
    if deletable_store i then remove_dead_rev (dec_operands i u) rest
    else if dead_def u i then remove_dead_rev (dec_operands i u) rest
    else
      let p := remove_dead_rev u rest
      (i :: p.1, p.2)

/-- remove_dead_instrs over the instruction list in program order. -/
def remove_dead_instrs (instrs : List DInstr) (u : Nat → Int) :
    List DInstr × (Nat → Int) :=
  let p := remove_dead_rev u instrs.reverse
  (p.1.reverse, p.2)

/-- The deletable argument schedule passes to make_stmt for a store: CSE
optimization enabled, the ILT marked delete (the value is immediately
reloadable), and the opcode of store type. -/
def schedule_store_deletable (cseOpt iltDelete isStoreType : Bool) : Bool :=
  cseOpt && (iltDelete && isStoreType)

/-- The store instruction make_stmt builds: the DELETABLE flag is set
exactly when the deletable argument is true. -/
def make_stmt_store (deletable : Bool) (opndTmps : List Nat) : DInstr :=
  ⟨.I_STORE, deletable, none, opndTmps⟩

/-- Call, invoke, and atomic read-modify-write instructions. -/
def is_call_like (i : DInstr) : Bool :=
  i.iname == .I_CALL || i.iname == .I_INVOKE || i.iname == .I_ATOMICRMW

/-- Call-like instructions are never removed: filtering the walked list
for them gives back exactly the call-like instructions of the input. -/
theorem remove_dead_rev_keeps_calls (l : List DInstr) (u : Nat → Int) :
    (remove_dead_rev u l).1.filter is_call_like = l.filter is_call_like := by
  induction l generalizing u with
  | nil => rfl
  | cons j rest ih =>
    by_cases h1 : deletable_store j
    · have hnc : is_call_like j = false := by
        simp [deletable_store] at h1
        simp [is_call_like, h1.1]
      rw [remove_dead_rev, if_pos h1, List.filter_cons, hnc]
      simpa using ih (dec_operands j u)
    · by_cases h2 : dead_def u j
      · have hnc : is_call_like j = false := by
          simp [dead_def] at h2
          simp [is_call_like, h2.1.1.1, h2.1.1.2, h2.1.2]
        rw [remove_dead_rev, if_neg h1, if_pos h2, List.filter_cons, hnc]
        simpa using ih (dec_operands j u)
      · rw [remove_dead_rev, if_neg h1, if_neg h2]
        simp only [List.filter_cons]
        cases hjc : is_call_like j <;> simp [ih u]

/-- No deletable store survives the backward walk. -/
theorem remove_dead_rev_no_deletable_store (l : List DInstr)
    (i : DInstr) :
    ∀ (u : Nat → Int), i ∈ (remove_dead_rev u l).1 →
      deletable_store i = false := by
  induction l with
  | nil =>
    intro u hmem
    simp [remove_dead_rev] at hmem
  | cons j rest ih =>
    intro u hmem
    by_cases h1 : deletable_store j
    · rw [remove_dead_rev, if_pos h1] at hmem
      exact ih (dec_operands j u) hmem
    · by_cases h2 : dead_def u j
      · rw [remove_dead_rev, if_neg h1, if_pos h2] at hmem
        exact ih (dec_operands j u) hmem
      · rw [remove_dead_rev, if_neg h1, if_neg h2] at hmem
        rcases List.mem_cons.mp hmem with he | hmem2
        · subst he
          exact Bool.eq_false_iff.mpr h1
        · exact ih u hmem2

/-- Anything removed was either a deletable store or a non-call
instruction defining a temporary. -/
theorem remove_dead_rev_only_removes (l : List DInstr) (i : DInstr) :
    ∀ (u : Nat → Int), i ∈ l → i ∉ (remove_dead_rev u l).1 →
      deletable_store i = true ∨
        ((i.iname ≠ .I_CALL ∧ i.iname ≠ .I_INVOKE ∧
          i.iname ≠ .I_ATOMICRMW) ∧ i.tmps.isSome) := by
  induction l with
  | nil =>
    intro u hmem _
    simp at hmem
  | cons j rest ih =>
    intro u hmem hgone
    by_cases h1 : deletable_store j
    · rw [remove_dead_rev, if_pos h1] at hgone
      rcases List.mem_cons.mp hmem with he | hmem2
      · subst he; exact Or.inl h1
      · exact ih (dec_operands j u) hmem2 hgone
    · by_cases h2 : dead_def u j
      · rw [remove_dead_rev, if_neg h1, if_pos h2] at hgone
        rcases List.mem_cons.mp hmem with he | hmem2
        · subst he
          simp [dead_def] at h2
          obtain ⟨⟨⟨hc1, hc2⟩, hc3⟩, hm⟩ := h2
          refine Or.inr ⟨⟨hc1, hc2, hc3⟩, ?_⟩
          rcases hts : i.tmps with _ | tq
          · rw [hts] at hm
            simp at hm
          · simp
        · exact ih (dec_operands j u) hmem2 hgone
      · rw [remove_dead_rev, if_neg h1, if_neg h2] at hgone
        rcases List.mem_cons.mp hmem with he | hmem2
        · exact absurd (by simp [he]) hgone
        · exact ih u hmem2 (fun hin => hgone (List.mem_cons_of_mem j hin))

end DCE

/-- C6: the backward dead-code walk (a) removes every store flagged
deletable, (b) removes every non-call/invoke/atomicrmw instruction whose
defined temporary has use count at most zero at visit time, (c) keeps
everything else in place, (d) never removes a call, invoke, or atomicrmw
(their filtered subsequence is untouched), (e) leaves no deletable store
in the output and removes nothing outside the two removal classes; and
(f) the statement scheduler sets a store's DELETABLE flag exactly when
CSE optimization is enabled, the ILT is marked delete (value immediately
reloadable), and the opcode is of store type. -/
theorem remove_dead_instrs_exact :
    (∀ (u : Nat → Int) (i : DCE.DInstr) (rest : List DCE.DInstr),
      DCE.deletable_store i = true →
      DCE.remove_dead_rev u (i :: rest)
        = DCE.remove_dead_rev (DCE.dec_operands i u) rest) ∧
    (∀ (u : Nat → Int) (i : DCE.DInstr) (rest : List DCE.DInstr),
      DCE.deletable_store i = false → DCE.dead_def u i = true →
      DCE.remove_dead_rev u (i :: rest)
        = DCE.remove_dead_rev (DCE.dec_operands i u) rest) ∧
    (∀ (u : Nat → Int) (i : DCE.DInstr) (rest : List DCE.DInstr),
      DCE.deletable_store i = false → DCE.dead_def u i = false →
      DCE.remove_dead_rev u (i :: rest)
        = (i :: (DCE.remove_dead_rev u rest).1,
            (DCE.remove_dead_rev u rest).2)) ∧
    (∀ (instrs : List DCE.DInstr) (u : Nat → Int),
      (DCE.remove_dead_instrs instrs u).1.filter DCE.is_call_like
        = instrs.filter DCE.is_call_like) ∧
    (∀ (instrs : List DCE.DInstr) (u : Nat → Int) (i : DCE.DInstr),
      i ∈ (DCE.remove_dead_instrs instrs u).1 →
      DCE.deletable_store i = false) ∧
    (∀ (instrs : List DCE.DInstr) (u : Nat → Int) (i : DCE.DInstr),
      i ∈ instrs → i ∉ (DCE.remove_dead_instrs instrs u).1 →
      DCE.deletable_store i = true ∨
        ((i.iname ≠ .I_CALL ∧ i.iname ≠ .I_INVOKE ∧
          i.iname ≠ .I_ATOMICRMW) ∧ i.tmps.isSome)) ∧
    (∀ (cseOpt iltDelete isStoreType : Bool) (ops : List Nat),
      (DCE.make_stmt_store
          (DCE.schedule_store_deletable cseOpt iltDelete isStoreType)
          ops).deletable
        = (cseOpt && iltDelete && isStoreType)) := by
  refine ⟨?_, ?_, ?_, ?_, ?_, ?_, ?_⟩
  · intro u i rest h1
    rw [DCE.remove_dead_rev, if_pos h1]
  · intro u i rest h1 h2
    rw [DCE.remove_dead_rev, if_neg (by simp [h1]), if_pos h2]
  · intro u i rest h1 h2
    rw [DCE.remove_dead_rev, if_neg (by simp [h1]), if_neg (by simp [h2])]
  · intro instrs u
    show (DCE.remove_dead_rev u instrs.reverse).1.reverse.filter
        DCE.is_call_like = instrs.filter DCE.is_call_like
    rw [List.filter_reverse, DCE.remove_dead_rev_keeps_calls,
      List.filter_reverse, List.reverse_reverse]
  · intro instrs u i hmem
    unfold DCE.remove_dead_instrs at hmem
    exact DCE.remove_dead_rev_no_deletable_store instrs.reverse i u
      (by simpa using hmem)
  · intro instrs u i hmem hgone
    unfold DCE.remove_dead_instrs at hgone
    refine DCE.remove_dead_rev_only_removes instrs.reverse i u
      (by simpa using hmem) ?_
    intro hin
    exact hgone (by simpa using hin)
  · intro cseOpt iltDelete isStoreType ops
    simp [DCE.make_stmt_store, DCE.schedule_store_deletable,
      Bool.and_assoc]

/-- Concrete instructions for the dead-code witness. -/
def dceStoreDel : DCE.DInstr := ⟨.I_STORE, true, none, [3]⟩

def dceDeadDef : DCE.DInstr := ⟨.I_OTHER, false, some 4, [3]⟩

def dceCall : DCE.DInstr := ⟨.I_CALL, false, some 4, []⟩

/-- Witness for the dead-code theorem: every half applied at concrete
inputs. -/
theorem remove_dead_instrs_exact_witness :
    DCE.remove_dead_rev (fun _ => 1) [dceStoreDel]
      = DCE.remove_dead_rev (DCE.dec_operands dceStoreDel (fun _ => 1))
          [] ∧
    DCE.remove_dead_rev (fun _ => 0) [dceDeadDef]
      = DCE.remove_dead_rev (DCE.dec_operands dceDeadDef (fun _ => 0))
          [] ∧
    DCE.remove_dead_rev (fun _ => 0) [dceCall]
      = (dceCall :: (DCE.remove_dead_rev (fun _ => (0 : Int)) []).1,
          (DCE.remove_dead_rev (fun _ => (0 : Int)) []).2) ∧
    (DCE.remove_dead_instrs [dceCall] (fun _ => 0)).1.filter
        DCE.is_call_like
      = [dceCall].filter DCE.is_call_like ∧
    (dceCall ∈ (DCE.remove_dead_instrs [dceCall] (fun _ => 0)).1 →
      DCE.deletable_store dceCall = false) ∧
    (DCE.deletable_store dceStoreDel = true ∨
      ((dceStoreDel.iname ≠ .I_CALL ∧ dceStoreDel.iname ≠ .I_INVOKE ∧
        dceStoreDel.iname ≠ .I_ATOMICRMW) ∧ dceStoreDel.tmps.isSome)) ∧
    (DCE.make_stmt_store
        (DCE.schedule_store_deletable true true true) [3]).deletable
      = (true && true && true) := by
  refine ⟨?_, ?_, ?_, ?_, ?_, ?_, ?_⟩
  · exact remove_dead_instrs_exact.1 (fun _ => 1) dceStoreDel []
      (by decide)
  · exact remove_dead_instrs_exact.2.1 (fun _ => 0) dceDeadDef []
      (by decide) (by decide)
  · exact remove_dead_instrs_exact.2.2.1 (fun _ => 0) dceCall []
      (by decide) (by decide)
  · exact remove_dead_instrs_exact.2.2.2.1 [dceCall] (fun _ => 0)
  · exact fun hmem => remove_dead_instrs_exact.2.2.2.2.1 [dceCall]
      (fun _ => 0) dceCall hmem
  · exact remove_dead_instrs_exact.2.2.2.2.2.1 [dceStoreDel]
      (fun _ => 0) dceStoreDel (by decide) (by decide)
  · exact remove_dead_instrs_exact.2.2.2.2.2.2 true true true [3]

namespace Printer

/-- The instruction shapes distinguished by the label/terminator logic of
write_instructions: a label (I_NONE; sptr 0 is the ignored entry label),
the terminators br/ret/switch/indirectbr, and any other instruction. -/
inductive WIn
  | labelI (sptr : Nat)
  | brI
  | retI
  | swI
  | indbrI
  | otherI
deriving DecidableEq

/-- The printed items, abstracted one token group per print position:
a synthesized dead label, a synthesized branch to a label, the label
itself, and the per-opcode instruction text (including the synthesized
trailing return). -/
inductive PTok
  | deadLabel (n : Nat)
  | brToLabel (s : Nat)
  | labelTok (s : Nat)
  | brTok
  | retTok
  | swTok
  | indbrTok
  | otherTok
deriving DecidableEq

/-- Modelled from the spec: INSTR_IS_BRANCH (its macro definition lives in
a header outside the translated module).  Per the spec, every label must
be immediately preceded by a branch/terminator, and the printer tests the
predecessor with this predicate; the terminators of this model are br,
ret, switch, and indirectbr. -/
def INSTR_IS_BRANCH : WIn → Bool
  | .brI => true
  | .retI => true
  | .swI => true
  | .indbrI => true
  | _ => false

/-- dont_force_a_dummy_label: no dummy label is needed before a label,
nor before a branch that is immediately followed by a label (the
back-to-back-terminators case). -/
def dont_force_a_dummy_label (i : WIn) (next : Option WIn) : Bool :=
  match i with
  | .labelI _ => true
  | .brI =>
    match next with
    | some (.labelI _) => true
    | _ => false
  | _ => false

/-- The main loop of write_instructions, restricted to the label and
terminator discipline: the forceLabel flag is set after printing a
terminator and, unless the next instruction clears it, makes the printer
emit a synthesized dead label; a label whose predecessor is absent or not
a branch is preceded by a synthesized branch to itself; a label that ends
the routine is followed by a synthesized return; a branch whose
predecessor is already a terminator is skipped. -/
def write_instructions :
    Bool → Nat → Option WIn → List WIn → List PTok
  | _, _, _, [] => []
  | fl, cnt, prev, i :: rest =>
    let fl1 := if dont_force_a_dummy_label i rest.head? then false else fl
    let pre : List PTok := if fl1 then [.deadLabel cnt] else []
    let cnt1 := if fl1 then cnt + 1 else cnt
    match i with
    | .labelI s =>
      if prev = none ∧ s = 0 then
        pre ++ write_instructions false cnt1 (some i) rest
      else
        let brpre : List PTok :=
          if prev = none ∨ INSTR_IS_BRANCH (prev.getD .otherI) = false then
            [.brToLabel s]
          else []
        let retpost : List PTok := if rest = [] then [.retTok] else []
        pre ++ brpre ++ [.labelTok s] ++ retpost ++
          write_instructions false cnt1 (some i) rest
    | .brI =>
      if prev = none ∨ (prev ≠ some .retI ∧ prev ≠ some .brI) then
        pre ++ [.brTok] ++ write_instructions true cnt1 (some i) rest
      else
        pre ++ write_instructions false cnt1 (some i) rest
    | .retI => pre ++ [.retTok] ++ write_instructions true cnt1 (some i) rest
    | .swI => pre ++ [.swTok] ++ write_instructions true cnt1 (some i) rest
    | .indbrI =>
      pre ++ [.indbrTok] ++ write_instructions true cnt1 (some i) rest
    | .otherI => pre ++ [.otherTok] ++ write_instructions false cnt1
        (some i) rest

end Printer

/-- C7: (i) when the printer reaches a label whose predecessor is absent
or not a branch/terminator, it emits a branch to that label immediately
before the label; (ii) an instruction that follows a terminator with no
intervening label is preceded by a synthesized dead label; (iii) a label
that is the last instruction of the routine is followed by a synthesized
return, so every printed block ends in a terminator. -/
theorem printer_label_terminator_discipline :
    (∀ (fl : Bool) (cnt : Nat) (prev : Option Printer.WIn) (s : Nat)
        (rest : List Printer.WIn),
      s ≠ 0 →
      (prev = none ∨
        Printer.INSTR_IS_BRANCH (prev.getD .otherI) = false) →
      Printer.write_instructions fl cnt prev (.labelI s :: rest)
        = .brToLabel s :: .labelTok s ::
            ((if rest = [] then [.retTok] else []) ++
              Printer.write_instructions false cnt (some (.labelI s))
                rest)) ∧
    (∀ (cnt : Nat) (prev : Option Printer.WIn)
        (rest : List Printer.WIn),
      Printer.write_instructions false cnt prev (.retI :: .otherI :: rest)
        = .retTok :: .deadLabel cnt :: .otherTok ::
            Printer.write_instructions false (cnt + 1) (some .otherI)
              rest) ∧
    (∀ (fl : Bool) (cnt : Nat) (prev : Option Printer.WIn) (s : Nat),
      s ≠ 0 →
      (prev = none ∨
        Printer.INSTR_IS_BRANCH (prev.getD .otherI) = false) →
      Printer.write_instructions fl cnt prev [.labelI s]
        = [.brToLabel s, .labelTok s, .retTok]) := by
  refine ⟨?_, ?_, ?_⟩
  · intro fl cnt prev s rest hs hprev
    rcases hprev with hprev | hprev
    · subst hprev
      simp [Printer.write_instructions, Printer.dont_force_a_dummy_label,
        hs]
    · cases prev with
      | none =>
        simp [Printer.write_instructions,
          Printer.dont_force_a_dummy_label, hs]
      | some p =>
        simp only [Option.getD] at hprev
        simp [Printer.write_instructions,
          Printer.dont_force_a_dummy_label, hs, hprev]
  · intro cnt prev rest
    simp [Printer.write_instructions, Printer.dont_force_a_dummy_label]
  · intro fl cnt prev s hs hprev
    rcases hprev with hprev | hprev
    · subst hprev
      simp [Printer.write_instructions, Printer.dont_force_a_dummy_label,
        hs]
    · cases prev with
      | none =>
        simp [Printer.write_instructions,
          Printer.dont_force_a_dummy_label, hs]
      | some p =>
        simp only [Option.getD] at hprev
        simp [Printer.write_instructions,
          Printer.dont_force_a_dummy_label, hs, hprev]

/-- Witness for the printer theorem: all three halves applied at concrete
inputs. -/
theorem printer_label_terminator_discipline_witness :
    Printer.write_instructions false 0 (some .otherI)
        [.labelI 5, .otherI]
      = .brToLabel 5 :: .labelTok 5 ::
          (([] : List Printer.PTok) ++
            Printer.write_instructions false 0 (some (.labelI 5))
              [.otherI]) ∧
    Printer.write_instructions false 0 none [.retI, .otherI]
      = .retTok :: .deadLabel 0 :: .otherTok ::
          Printer.write_instructions false 1 (some .otherI) [] ∧
    Printer.write_instructions false 0 (some .otherI) [.labelI 5]
      = [.brToLabel 5, .labelTok 5, .retTok] := by
  refine ⟨?_, ?_, ?_⟩
  · have h := printer_label_terminator_discipline.1 false 0
      (some .otherI) 5 [.otherI] (by decide) (Or.inr (by decide))
    simpa using h
  · exact printer_label_terminator_discipline.2.1 0 none []
  · exact printer_label_terminator_discipline.2.2 false 0
      (some .otherI) 5 (by decide) (Or.inr (by decide))

namespace VMinMax

/-- The three mutually exclusive build-time targets for vector min/max
intrinsic selection. -/
inductive Target
  | generic
  | power
  | arm
deriving DecidableEq

/-- Element types of a vector dtype (DTY(DTY(vect_dtype+1))). -/
inductive ElemTy
  | TY_FLOAT
  | TY_DBLE
  | TY_INT
  | TY_UINT
  | TY_SINT
  | TY_USINT
  | TY_BINT
  | TY_OTHER
deriving DecidableEq

/-- A vector dtype: element type and vector length
(DTY(vect_dtype+2)). -/
structure VectDtype where
  elem : ElemTy
  size : Nat
deriving DecidableEq

inductive MinOrMax
  | vmin
  | vmax
deriving DecidableEq

/-- zsize_of in bits for the element types above (bytes times 8). -/
def elem_bits : ElemTy → Nat
  | .TY_FLOAT => 32
  | .TY_DBLE => 64
  | .TY_INT => 32
  | .TY_UINT => 32
  | .TY_SINT => 16
  | .TY_USINT => 16
  | .TY_BINT => 8
  | .TY_OTHER => 0

/-- gen_call_vminmax_intrinsic (generic target): the switch falls through
so that float/double/int/uint accept vector sizes 2, 4, 8; sint/usint
accept 4, 8; bint and anything else fall to the default and return no
intrinsic.  The name is llvm.minnum/llvm.maxnum with the vector shape
suffix. -/
def gen_call_vminmax_intrinsic (op : MinOrMax) (vd : VectDtype) :
    Option String :=
  let mstr := match op with
    | .vmin => "minnum"
    | .vmax => "maxnum"
  let typec := match vd.elem with
    | .TY_FLOAT | .TY_DBLE => "f"
    | _ => "i"
  match vd.elem with
  | .TY_FLOAT | .TY_DBLE | .TY_INT | .TY_UINT =>
    if vd.size ≠ 2 ∧ vd.size ≠ 4 ∧ vd.size ≠ 8 then none
    else some ("@llvm." ++ mstr ++ ".v" ++ toString vd.size ++ typec ++
      toString (elem_bits vd.elem))
  | .TY_SINT | .TY_USINT =>
    if vd.size ≠ 4 ∧ vd.size ≠ 8 then none
    else some ("@llvm." ++ mstr ++ ".v" ++ toString vd.size ++ typec ++
      toString (elem_bits vd.elem))
  | .TY_BINT | .TY_OTHER => none

/-- gen_call_vminmax_power_intrinsic: only float/double vectors of length
4 (single) or 2 (double) map to the VSX xvmin/xvmax intrinsics. -/
def gen_call_vminmax_power_intrinsic (op : MinOrMax) (vd : VectDtype) :
    Option String :=
  let mstr := match op with
    | .vmin => "min"
    | .vmax => "max"
  if vd.size ≠ 2 ∧ vd.size ≠ 4 then none
  else
    match vd.elem with
    | .TY_FLOAT | .TY_DBLE =>
      some ("@llvm.ppc.vsx.xv" ++ mstr ++
        (if vd.size = 2 then "dp" else "sp"))
    | _ => none

/-- gen_call_vminmax_neon_intrinsic: requires NEON; float/int/uint accept
sizes 2, 4; sint/usint accept 4, 8; bint and the rest return no
intrinsic. -/
def gen_call_vminmax_neon_intrinsic (neonEnabled : Bool) (op : MinOrMax)
    (vd : VectDtype) : Option String :=
  if ¬neonEnabled then none
  else
    let mstr := match op with
      | .vmin => "vmin"
      | .vmax => "vmax"
    let signc := match vd.elem with
      | .TY_FLOAT | .TY_INT | .TY_SINT | .TY_BINT => "s"
      | _ => "u"
    let typec := match vd.elem with
      | .TY_FLOAT => "f"
      | _ => "i"
    match vd.elem with
    | .TY_FLOAT | .TY_INT | .TY_UINT =>
      if vd.size ≠ 2 ∧ vd.size ≠ 4 then none
      else some ("@llvm.arm.neon." ++ mstr ++ signc ++ ".v" ++
        toString vd.size ++ typec ++ toString (elem_bits vd.elem))
    | .TY_SINT | .TY_USINT =>
      if vd.size ≠ 4 ∧ vd.size ≠ 8 then none
      else some ("@llvm.arm.neon." ++ mstr ++ signc ++ ".v" ++
        toString vd.size ++ typec ++ toString (elem_bits vd.elem))
    | .TY_BINT | .TY_DBLE | .TY_OTHER => none

/-- The per-target intrinsic lookup the IL_VMIN/IL_VMAX case performs. -/
def vminmax_lookup (target : Target) (neonEnabled : Bool) (op : MinOrMax)
    (vd : VectDtype) : Option String :=
  match target with
  | .power => gen_call_vminmax_power_intrinsic op vd
  | .arm => gen_call_vminmax_neon_intrinsic neonEnabled op vd
  | .generic => gen_call_vminmax_intrinsic op vd

/-- The condition codes gen_minmax_expr picks for the compare of the
fallback form. -/
inductive LLCC
  | LLCCF_OLT
  | LLCCF_OGT
  | LLCC_SLT
  | LLCC_SGT
  | LLCC_ULT
  | LLCC_UGT
deriving DecidableEq

def DT_ISUNSIGNED : ElemTy → Bool
  | .TY_UINT => true
  | .TY_USINT => true
  | _ => false

/-- The compare condition of gen_minmax_expr for IL_VMIN/IL_VMAX:
CC_LT for vmin, CC_GT for vmax; float comparisons for float/double
elements, otherwise integer comparisons signed or unsigned by element
type. -/
def minmax_llcc (op : MinOrMax) (vd : VectDtype) : LLCC :=
  match vd.elem with
  | .TY_FLOAT | .TY_DBLE =>
    match op with
    | .vmin => .LLCCF_OLT
    | .vmax => .LLCCF_OGT
  | _ =>
    if DT_ISUNSIGNED vd.elem then
      match op with
      | .vmin => .LLCC_ULT
      | .vmax => .LLCC_UGT
    else
      match op with
      | .vmin => .LLCC_SLT
      | .vmax => .LLCC_SGT

/-- Whether the fallback compare is a float compare (I_FCMP) rather than
an integer compare (I_ICMP). -/
def minmax_is_fcmp (vd : VectDtype) : Bool :=
  match vd.elem with
  | .TY_FLOAT | .TY_DBLE => true
  | _ => false

/-- The instructions emitted by vector min/max lowering: an intrinsic
call, or a compare followed by a select. -/
inductive VInstr
  | callIntrinsic (nm : String)
  | cmp (fcmp : Bool) (cc : LLCC)
  | selectI
deriving DecidableEq

/-- gen_minmax_expr for a vector min/max: a compare of the two operands
followed by a select. -/
def gen_minmax_expr_instrs (op : MinOrMax) (vd : VectDtype) :
    List VInstr :=
  [.cmp (minmax_is_fcmp vd) (minmax_llcc op vd), .selectI]

/-- The IL_VMIN/IL_VMAX case of gen_llvm_expr: try the target's intrinsic
table; when it yields nothing, fall back to the generic
compare-and-select form. -/
def gen_vminmax (target : Target) (neonEnabled : Bool) (op : MinOrMax)
    (vd : VectDtype) : List VInstr :=
  match target with
  | .power =>
    match gen_call_vminmax_power_intrinsic op vd with
    | some nm => [.callIntrinsic nm]
    | none => gen_minmax_expr_instrs op vd
  | .arm =>
    match gen_call_vminmax_neon_intrinsic neonEnabled op vd with
    | some nm => [.callIntrinsic nm]
    | none => gen_minmax_expr_instrs op vd
  | .generic =>
    match gen_call_vminmax_intrinsic op vd with
    | some nm => [.callIntrinsic nm]
    | none => gen_minmax_expr_instrs op vd

end VMinMax

/-- C8: vector min/max lowering first consults the target-specific
intrinsic table; whenever that lookup yields no intrinsic (an element
type or vector length outside that table's supported set), lowering does
not fail but emits the generic fallback — a compare of the two operands
followed by a select; and on every input the lowering emits something
(either the intrinsic call or the fallback pair). -/
theorem vminmax_intrinsic_fallback :
    (∀ (target : VMinMax.Target) (neonEnabled : Bool)
        (op : VMinMax.MinOrMax) (vd : VMinMax.VectDtype),
      VMinMax.vminmax_lookup target neonEnabled op vd = none →
      VMinMax.gen_vminmax target neonEnabled op vd
        = [.cmp (VMinMax.minmax_is_fcmp vd) (VMinMax.minmax_llcc op vd),
            .selectI]) ∧
    (∀ (target : VMinMax.Target) (neonEnabled : Bool)
        (op : VMinMax.MinOrMax) (vd : VMinMax.VectDtype),
      VMinMax.gen_vminmax target neonEnabled op vd ≠ []) ∧
    (∀ (target : VMinMax.Target) (neonEnabled : Bool)
        (op : VMinMax.MinOrMax) (vd : VMinMax.VectDtype) (nm : String),
      VMinMax.vminmax_lookup target neonEnabled op vd = some nm →
      VMinMax.gen_vminmax target neonEnabled op vd
        = [.callIntrinsic nm]) := by
  refine ⟨?_, ?_, ?_⟩
  · intro target neonEnabled op vd hnone
    cases target <;>
      simp [VMinMax.vminmax_lookup] at hnone <;>
      simp [VMinMax.gen_vminmax, hnone, VMinMax.gen_minmax_expr_instrs]
  · intro target neonEnabled op vd
    cases target
    · cases hq : VMinMax.gen_call_vminmax_intrinsic op vd <;>
        simp [VMinMax.gen_vminmax, hq, VMinMax.gen_minmax_expr_instrs]
    · cases hq : VMinMax.gen_call_vminmax_power_intrinsic op vd <;>
        simp [VMinMax.gen_vminmax, hq, VMinMax.gen_minmax_expr_instrs]
    · cases hq : VMinMax.gen_call_vminmax_neon_intrinsic neonEnabled
          op vd <;>
        simp [VMinMax.gen_vminmax, hq, VMinMax.gen_minmax_expr_instrs]
  · intro target neonEnabled op vd nm hsome
    cases target <;>
      simp [VMinMax.vminmax_lookup] at hsome <;>
      simp [VMinMax.gen_vminmax, hsome]

/-- Witness for the vector min/max theorem: a vector length outside the
generic table (v3f32) falls back to compare-and-select, and a supported
shape (v4f32) calls the intrinsic. -/
theorem vminmax_intrinsic_fallback_witness :
    VMinMax.gen_vminmax .generic false .vmax ⟨.TY_FLOAT, 3⟩
      = [.cmp (VMinMax.minmax_is_fcmp ⟨.TY_FLOAT, 3⟩)
            (VMinMax.minmax_llcc .vmax ⟨.TY_FLOAT, 3⟩),
          .selectI] ∧
    VMinMax.gen_vminmax .generic false .vmax ⟨.TY_FLOAT, 4⟩
      = [.callIntrinsic "@llvm.maxnum.v4f32"] := by
  constructor
  · exact vminmax_intrinsic_fallback.1 .generic false .vmax
      ⟨.TY_FLOAT, 3⟩ (by decide)
  · exact vminmax_intrinsic_fallback.2.2 .generic false .vmax
      ⟨.TY_FLOAT, 4⟩ "@llvm.maxnum.v4f32" (by decide)

namespace Sched

/-- The dispatch classes of one ILT in schedule's statement loop: a
branch, a store, a block move, a call, a fence, a result-move (routine
return), a free, a label, and everything else (the terminal position of
the last block falls here). -/
inductive IltKind
  | brIlt
  | storeIlt
  | smoveIlt
  | callIlt
  | fenceIlt
  | mvIlt
  | freeIlt
  | labelIlt
  | otherIlt
deriving DecidableEq

/-- The statement kinds make_stmt produces for those classes. -/
inductive Stmt
  | STMT_BR
  | STMT_ST
  | STMT_SMOVE
  | STMT_CALL
  | STMT_RET
  | STMT_DECL
deriving DecidableEq

/-- Whether a statement is a block terminator. -/
def stmt_is_terminator : Stmt → Bool
  | .STMT_BR => true
  | .STMT_RET => true
  | _ => false

/-- One ILT of schedule's loop: the statements made and the updated
made_return flag.  A branch makes STMT_BR; a store STMT_ST; a block move
STMT_SMOVE; a call STMT_CALL; a fence emits no statement; a result-move
makes the routine's return statement and records made_return; a free
makes STMT_DECL; a label is skipped; any other ILT in the last block,
when no return has been made, triggers the synthesized default return. -/
def sched_ilt (isLastBih madeReturn : Bool) :
    IltKind → List Stmt × Bool
  | .brIlt => ([.STMT_BR], madeReturn)
  | .storeIlt => ([.STMT_ST], madeReturn)
  | .smoveIlt => ([.STMT_SMOVE], madeReturn)
  | .callIlt => ([.STMT_CALL], madeReturn)
  | .fenceIlt => ([], madeReturn)
  | .mvIlt => ([.STMT_RET], true)
  | .freeIlt => ([.STMT_DECL], madeReturn)
  | .labelIlt => ([], madeReturn)
  | .otherIlt =>
    if isLastBih ∧ madeReturn = false then ([.STMT_RET], madeReturn)
    else ([], madeReturn)

/-- schedule's loop over the ILTs of one block. -/
def sched_block (isLastBih : Bool) :
    Bool → List IltKind → List Stmt × Bool
  | mr, [] => ([], mr)
  | mr, k :: rest =>
    let p := sched_ilt isLastBih mr k
    let q := sched_block isLastBih p.2 rest
    (p.1 ++ q.1, q.2)

/-- A block without result-moves never sets made_return. -/
theorem sched_block_no_mv_keeps_flag (ilts : List IltKind)
    (isLastBih : Bool) :
    ∀ (mr : Bool), (∀ k ∈ ilts, k ≠ IltKind.mvIlt) →
      (sched_block isLastBih mr ilts).2 = mr := by
  induction ilts with
  | nil => intro mr _; rfl
  | cons k rest ih =>
    intro mr hno
    have hk : k ≠ IltKind.mvIlt := hno k (by simp)
    have hrest : ∀ k2 ∈ rest, k2 ≠ IltKind.mvIlt :=
      fun k2 hm => hno k2 (by simp [hm])
    cases k <;>
      first
        | exact absurd rfl hk
        | (simp only [sched_block, sched_ilt]
           try split
           all_goals simp [ih _ hrest])

end Sched

/-- C9: (a) for a last basic block whose ILT list ends with a terminal
non-return ILT (no result-move anywhere, so no explicit return was made),
the scheduled statement list ends with the synthesized default STMT_RET;
(b) when the block ends with an explicit return (a result-move), the
statement list also ends with STMT_RET; (c) the synthesis itself: a
terminal other-ILT of the last block with no return made produces the
default return statement; (d) STMT_RET is a terminator, so the routine's
statement list always ends in a terminator. -/
theorem schedule_default_return :
    (∀ (ilts : List Sched.IltKind),
      (∀ k ∈ ilts, k ≠ Sched.IltKind.mvIlt) →
      ilts.getLast? = some .otherIlt →
      (Sched.sched_block true false ilts).1.getLast?
        = some .STMT_RET) ∧
    (∀ (ilts : List Sched.IltKind) (mr : Bool),
      ilts.getLast? = some .mvIlt →
      (Sched.sched_block true mr ilts).1.getLast? = some .STMT_RET) ∧
    Sched.sched_ilt true false .otherIlt = ([.STMT_RET], false) ∧
    Sched.stmt_is_terminator .STMT_RET = true := by
  refine ⟨?_, ?_, rfl, rfl⟩
  · intro ilts
    induction ilts with
    | nil => intro _ hlast; simp at hlast
    | cons k rest ih =>
      intro hno hlast
      have hk : k ≠ Sched.IltKind.mvIlt := hno k (by simp)
      have hrest : ∀ k2 ∈ rest, k2 ≠ Sched.IltKind.mvIlt :=
        fun k2 hm => hno k2 (by simp [hm])
      cases rest with
      | nil =>
        simp at hlast
        subst hlast
        rfl
      | cons r rest2 =>
        have hlast2 : (r :: rest2).getLast? = some Sched.IltKind.otherIlt
            := by simpa using hlast
        have hmr2 : (Sched.sched_ilt true false k).2 = false := by
          cases k <;> first
            | exact absurd rfl hk
            | rfl
        have htail := ih hrest hlast2
        have hunfold : (Sched.sched_block true false (k :: r :: rest2)).1
            = (Sched.sched_ilt true false k).1 ++
              (Sched.sched_block true (Sched.sched_ilt true false k).2
                (r :: rest2)).1 := rfl
        rw [hunfold, List.getLast?_append, hmr2, htail]
        rfl
  · intro ilts
    induction ilts with
    | nil => intro mr hlast; simp at hlast
    | cons k rest ih =>
      intro mr hlast
      cases rest with
      | nil =>
        simp at hlast
        subst hlast
        rfl
      | cons r rest2 =>
        have hlast2 : (r :: rest2).getLast? = some Sched.IltKind.mvIlt
            := by simpa using hlast
        have htail := ih (Sched.sched_ilt true mr k).2 hlast2
        have hunfold : (Sched.sched_block true mr (k :: r :: rest2)).1
            = (Sched.sched_ilt true mr k).1 ++
              (Sched.sched_block true (Sched.sched_ilt true mr k).2
                (r :: rest2)).1 := rfl
        rw [hunfold, List.getLast?_append, htail]
        rfl

/-- Witness for the scheduler default-return theorem: a last block of a
store, a call, and the terminal ILT gets the synthesized return; a block
ending in an explicit return ends in STMT_RET too. -/
theorem schedule_default_return_witness :
    (Sched.sched_block true false
        [.storeIlt, .callIlt, .otherIlt]).1.getLast?
      = some .STMT_RET ∧
    (Sched.sched_block true false [.storeIlt, .mvIlt]).1.getLast?
      = some .STMT_RET := by
  constructor
  · exact schedule_default_return.1 [.storeIlt, .callIlt, .otherIlt]
      (by decide) (by decide)
  · exact schedule_default_return.2.1 [.storeIlt, .mvIlt] false
      (by decide)
